import Mathlib

/-
Verification development for the quiz application (src/test4.py).

The source is a Streamlit quiz app.  The parts the claims are about:
  * extract_questions (lines 102-120): regex segmentation of the model
    reply on the marker pattern, quote normalization, json.loads decode,
    diagnostics accumulation;
  * process_answer (lines 191-209): answer comparison and progression;
  * generate_questions (lines 80-100): tenacity retry wrapper around the
    network call, with an internal catch-all except;
  * generate_quiz (lines 147-169) and the Retake Quiz handler (315-323):
    session-state resets.

Strings are modelled as List Char.  Character classes model the ASCII
behaviour of Python regular expressions and str.strip; inputs exercised
by the claims are ASCII, the Unicode extensions of those classes are not
modelled.  Python ints are Nat here (all counters are non-negative).
-/

abbrev Str := List Char

def S (s : String) : Str := s.data

/-- Single-quote character (written via its code point to keep source text plain). -/
def sqc : Char := Char.ofNat 39

/-- Left brace character. -/
def lbc : Char := Char.ofNat 123

/-- Right brace character. -/
def rbc : Char := Char.ofNat 125

/-- Backslash character. -/
def bsc : Char := Char.ofNat 92

/-- Python regex class \s restricted to ASCII: space, tab, newline, carriage
return, vertical tab, form feed. -/
def isRegexWs (c : Char) : Bool :=
  c = ' ' || c = '\t' || c = '\n' || c = '\r' || c = Char.ofNat 11 || c = Char.ofNat 12

/-- JSON whitespace accepted by json.loads between tokens: space, tab,
newline, carriage return. -/
def isJsonWs (c : Char) : Bool :=
  c = ' ' || c = '\t' || c = '\n' || c = '\r'

/-- Python regex class \w restricted to ASCII: letters, digits, underscore. -/
def isWordChar (c : Char) : Bool :=
  c.isAlphanum || c = '_'

/-- Python str.strip() (ASCII whitespace set): drop whitespace from both ends. -/
def pyStrip (s : Str) : Str :=
  ((s.dropWhile isRegexWs).reverse.dropWhile isRegexWs).reverse

/-! ## JSON values and the json.loads model -/

/-- Decoded JSON value.  Numbers keep their source lexeme: the claims never
inspect numeric values, only decode success, so the int/float conversion of
json.loads is not modelled. -/
inductive JVal where
  | jstr : Str → JVal
  | jnum : Str → JVal
  | jbool : Bool → JVal
  | jnull : JVal
  | jobj : List (Str × JVal) → JVal
  | jarr : List JVal → JVal

/-- Python dict insertion used by the object decoder: a repeated key keeps its
first position and takes the latest value, a new key is appended. -/
def insertKey : List (Str × JVal) → Str → JVal → List (Str × JVal)
  | [], k, v => [(k, v)]
  | (k0, v0) :: rest, k, v =>
    if k0 = k then (k0, v) :: rest else (k0, v0) :: insertKey rest k v

/-- Lookup of a key in a decoded object, first match. -/
def lookupKey : List (Str × JVal) → Str → Option JVal
  | [], _ => none
  | (k0, v0) :: rest, k => if k0 = k then some v0 else lookupKey rest k

/-- Value of a hex digit, as used by the \uXXXX string escape. -/
def hexDigitVal (c : Char) : Option Nat :=
  if '0' ≤ c ∧ c ≤ '9' then some (c.toNat - 48)
  else if 'a' ≤ c ∧ c ≤ 'f' then some (c.toNat - 87)
  else if 'A' ≤ c ∧ c ≤ 'F' then some (c.toNat - 55)
  else none

/-- Short escapes accepted after a backslash in a JSON string. -/
def escMap (c : Char) : Option Char :=
  if c = '"' then some '"'
  else if c = bsc then some bsc
  else if c = '/' then some '/'
  else if c = 'b' then some (Char.ofNat 8)
  else if c = 'f' then some (Char.ofNat 12)
  else if c = 'n' then some '\n'
  else if c = 'r' then some '\r'
  else if c = 't' then some '\t'
  else none

/-- Combine four hex digits into a code point, if all four are hex digits. -/
def hex4 (a b c d : Char) : Option Nat :=
  match hexDigitVal a, hexDigitVal b, hexDigitVal c, hexDigitVal d with
  | some x, some y, some z, some w => some (((x * 16 + y) * 16 + z) * 16 + w)
  | _, _, _, _ => none

/-- Body of a JSON string after the opening quote: returns the decoded
characters and the input after the closing quote.  Surrogate pairs written
with two \u escapes are combined; a lone surrogate (which Python would keep
as a lone surrogate code unit) falls back to Char.ofNat, a documented
modelling limit never exercised by the claims. -/
def psbF : Nat → Str → Except Str (Str × Str)
  | 0, _ => .error (S "recursion limit")
  | _ + 1, [] => .error (S "Unterminated string starting at")
  | f + 1, c :: rest =>
    if c = '"' then .ok ([], rest)
    else if c = bsc then
      match rest with
      | 'u' :: h1 :: h2 :: h3 :: h4 :: rest2 =>
        match hex4 h1 h2 h3 h4 with
        | none => .error (S "Invalid \\uXXXX escape")
        | some n =>
          if 0xD800 ≤ n ∧ n < 0xDC00 then
            match rest2 with
            | b2 :: 'u' :: g1 :: g2 :: g3 :: g4 :: rest3 =>
              if b2 = bsc then
                match hex4 g1 g2 g3 g4 with
                | some m =>
                  if 0xDC00 ≤ m ∧ m < 0xE000 then
                    (psbF f rest3).map
                      (fun p => (Char.ofNat (0x10000 + (n - 0xD800) * 0x400 + (m - 0xDC00)) :: p.1, p.2))
                  else (psbF f rest2).map (fun p => (Char.ofNat n :: p.1, p.2))
                | none => (psbF f rest2).map (fun p => (Char.ofNat n :: p.1, p.2))
              else (psbF f rest2).map (fun p => (Char.ofNat n :: p.1, p.2))
            | _ => (psbF f rest2).map (fun p => (Char.ofNat n :: p.1, p.2))
          else (psbF f rest2).map (fun p => (Char.ofNat n :: p.1, p.2))
      | e :: rest2 =>
        match escMap e with
        | some d => (psbF f rest2).map (fun p => (d :: p.1, p.2))
        | none => .error (S "Invalid \\escape")
      | [] => .error (S "Unterminated string starting at")
    else if c.toNat < 0x20 then .error (S "Invalid control character")
    else (psbF f rest).map (fun p => (c :: p.1, p.2))

/-- Body of a JSON string, fuel supplied from the input length: each step
consumes at least one character, so length plus one always suffices. -/
def parseStringBody (s : Str) : Except Str (Str × Str) := psbF (s.length + 1) s

/-- Number lexeme per the json NUMBER_RE: -?(0|[1-9][0-9]*)(.[0-9]+)?([eE][+-]?[0-9]+)?.
The optional fraction and exponent groups simply do not participate when
malformed, as with the regex. -/
def lexNumber (s : Str) : Option (Str × Str) :=
  let (negPart, s1) : Str × Str :=
    match s with
    | '-' :: t => (['-'], t)
    | _ => ([], s)
  match s1 with
  | [] => none
  | c :: t =>
    if c = '0' ∨ ¬c.isDigit then
      if c = '0' then
        let (intPart, rest) := (['0'], t)
        let (fracPart, rest2) :=
          match rest with
          | '.' :: u =>
            if (u.takeWhile Char.isDigit).isEmpty then (([] : Str), rest)
            else ('.' :: u.takeWhile Char.isDigit, u.dropWhile Char.isDigit)
          | _ => ([], rest)
        let (expPart, rest3) :=
          match rest2 with
          | e :: u =>
            if e = 'e' ∨ e = 'E' then
              match u with
              | sgn :: u2 =>
                if sgn = '+' ∨ sgn = '-' then
                  if (u2.takeWhile Char.isDigit).isEmpty then (([] : Str), rest2)
                  else (e :: sgn :: u2.takeWhile Char.isDigit, u2.dropWhile Char.isDigit)
                else
                  if (u.takeWhile Char.isDigit).isEmpty then (([] : Str), rest2)
                  else (e :: u.takeWhile Char.isDigit, u.dropWhile Char.isDigit)
              | [] => (([] : Str), rest2)
            else ([], rest2)
          | [] => ([], rest2)
        some (negPart ++ intPart ++ fracPart ++ expPart, rest3)
      else none
    else
      let (intPart, rest) := (c :: t.takeWhile Char.isDigit, t.dropWhile Char.isDigit)
      let (fracPart, rest2) :=
        match rest with
        | '.' :: u =>
          if (u.takeWhile Char.isDigit).isEmpty then (([] : Str), rest)
          else ('.' :: u.takeWhile Char.isDigit, u.dropWhile Char.isDigit)
        | _ => ([], rest)
      let (expPart, rest3) :=
        match rest2 with
        | e :: u =>
          if e = 'e' ∨ e = 'E' then
            match u with
            | sgn :: u2 =>
              if sgn = '+' ∨ sgn = '-' then
                if (u2.takeWhile Char.isDigit).isEmpty then (([] : Str), rest2)
                else (e :: sgn :: u2.takeWhile Char.isDigit, u2.dropWhile Char.isDigit)
              else
                if (u.takeWhile Char.isDigit).isEmpty then (([] : Str), rest2)
                else (e :: u.takeWhile Char.isDigit, u.dropWhile Char.isDigit)
            | [] => (([] : Str), rest2)
          else ([], rest2)
        | [] => ([], rest2)
      some (negPart ++ intPart ++ fracPart ++ expPart, rest3)

/-- Whitespace skipping between JSON tokens. -/
def skipWs (s : Str) : Str := s.dropWhile isJsonWs

/-- Task of the recursive-descent json.loads model: parse a value, the
members of an object, or the items of an array. -/
inductive PTask where
  | val : Str → PTask
  | mems : Str → List (Str × JVal) → PTask
  | items : Str → List JVal → PTask

/-- Recursive-descent decoder mirroring json.loads acceptance.  The Nat
argument is fuel bounding the recursion depth; loads supplies input length
plus one, which always suffices because every nested call has consumed at
least one character.  Error strings summarise the CPython messages. -/
def parseCore : Nat → PTask → Except Str (JVal × Str)
  | 0, _ => .error (S "recursion limit")
  | f + 1, .val s =>
    match skipWs s with
    | [] => .error (S "Expecting value")
    | c :: r =>
      if c = '"' then (parseStringBody r).map (fun p => (.jstr p.1, p.2))
      else if c = lbc then parseCore f (.mems r [])
      else if c = '[' then parseCore f (.items r [])
      else
        match c :: r with
        | 't' :: 'r' :: 'u' :: 'e' :: r2 => .ok (.jbool true, r2)
        | 'f' :: 'a' :: 'l' :: 's' :: 'e' :: r2 => .ok (.jbool false, r2)
        | 'n' :: 'u' :: 'l' :: 'l' :: r2 => .ok (.jnull, r2)
        | 'N' :: 'a' :: 'N' :: r2 => .ok (.jnum (S "NaN"), r2)
        | 'I' :: 'n' :: 'f' :: 'i' :: 'n' :: 'i' :: 't' :: 'y' :: r2 => .ok (.jnum (S "Infinity"), r2)
        | '-' :: 'I' :: 'n' :: 'f' :: 'i' :: 'n' :: 'i' :: 't' :: 'y' :: r2 =>
          .ok (.jnum (S "-Infinity"), r2)
        | s2 =>
          match lexNumber s2 with
          | some (tok, rest) => .ok (.jnum tok, rest)
          | none => .error (S "Expecting value")
  | f + 1, .mems s acc =>
    match skipWs s with
    | c :: r =>
      if c = '"' then
        match parseStringBody r with
        | .error e => .error e
        | .ok (k, r1) =>
          match skipWs r1 with
          | ':' :: r2 =>
            match parseCore f (.val r2) with
            | .error e => .error e
            | .ok (v, r3) =>
              match skipWs r3 with
              | ',' :: r4 => parseCore f (.mems r4 (insertKey acc k v))
              | c2 :: r4 =>
                if c2 = rbc then .ok (.jobj (insertKey acc k v), r4)
                else .error (S "Expecting , delimiter")
              | [] => .error (S "Expecting , delimiter")
          | _ => .error (S "Expecting : delimiter")
      else if c = rbc ∧ acc.isEmpty then .ok (.jobj [], r)
      else .error (S "Expecting property name enclosed in double quotes")
    | [] => .error (S "Expecting property name enclosed in double quotes")
  | f + 1, .items s acc =>
    match skipWs s with
    | c :: r =>
      if c = ']' ∧ acc.isEmpty then .ok (.jarr [], r)
      else
        match parseCore f (.val s) with
        | .error e => .error e
        | .ok (v, r1) =>
          match skipWs r1 with
          | ',' :: r2 => parseCore f (.items r2 (acc ++ [v]))
          | ']' :: r2 => .ok (.jarr (acc ++ [v]), r2)
          | _ => .error (S "Expecting , delimiter")
    | [] => .error (S "Expecting value")

/-- json.loads: parse one value, then require only whitespace to remain. -/
def loads (s : Str) : Except Str JVal :=
  match parseCore (s.length + 1) (.val s) with
  | .error e => .error e
  | .ok (v, rest) => if skipWs rest = [] then .ok v else .error (S "Extra data")

/-! ## Normalization (test4.py lines 110-111) -/

/-- Line 110: block.replace with every single quote turned into a double
quote. -/
def replQuote (s : Str) : Str :=
  s.map (fun c => if c = sqc then '"' else c)

/-- One pass of re.sub on the key-quoting pattern: group one is a maximal
\w+ run, group two is \s*:\s* with both whitespace runs taken greedily, and
the replacement wraps the run in double quotes.  The scan is modelled one
character at a time; the Nat argument counts characters of an already
emitted match that remain to be dropped.  A word character whose maximal
run is not followed by optional whitespace and a colon cannot start a
match, and neither can any later position inside that run (the text after
the run is the same), so the no-match case emits one character and
rescans. -/
def qkGo : Nat → Str → Str
  | _, [] => []
  | skip + 1, _ :: rest => qkGo skip rest
  | 0, c :: rest =>
    if isWordChar c then
      let run : Str := c :: rest.takeWhile isWordChar
      let after1 := rest.dropWhile isWordChar
      let ws1 := after1.takeWhile isRegexWs
      let after2 := after1.dropWhile isRegexWs
      match after2 with
      | ':' :: after3 =>
        let ws2 := after3.takeWhile isRegexWs
        '"' :: run ++ '"' :: ws1 ++ ':' :: ws2 ++
          qkGo (run.length - 1 + ws1.length + 1 + ws2.length) rest
      | _ => c :: qkGo 0 rest
    else c :: qkGo 0 rest

/-- Line 111: re.sub adding double quotes around barewords followed by a
colon. -/
def quoteKeys (s : Str) : Str := qkGo 0 s

/-- Per-block normalization of extract_questions: quote replacement then
key quoting. -/
def normalizeBlock (s : Str) : Str := quoteKeys (replQuote s)

/-! ## Segmentation (test4.py line 104)

re.findall with pattern \*\*Question\d+\*\*\s*( lbc .*? rbc )\s*(?=\*\*Question\d+\*\*|$)
under re.DOTALL: the group is the shortest brace span after the marker such
that what follows it, after some backtrackable amount of whitespace, is
another marker or the end anchor. -/

/-- Match the literal marker \*\*Question\d+\*\* at the head of the input and
return the input after it. -/
def stripMarker (s : Str) : Option Str :=
  match s with
  | a :: b :: c1 :: c2 :: c3 :: c4 :: c5 :: c6 :: c7 :: c8 :: t =>
    if a = '*' ∧ b = '*' ∧ c1 = 'Q' ∧ c2 = 'u' ∧ c3 = 'e' ∧ c4 = 's' ∧ c5 = 't' ∧
        c6 = 'i' ∧ c7 = 'o' ∧ c8 = 'n' then
      if (t.takeWhile Char.isDigit).isEmpty then none
      else
        match t.dropWhile Char.isDigit with
        | u1 :: u2 :: u => if u1 = '*' ∧ u2 = '*' then some u else none
        | _ => none
    else none
  | _ => none

/-- The $ anchor without re.MULTILINE: end of string, or just before a final
newline. -/
def dollarOk (s : Str) : Bool :=
  match s with
  | [] => true
  | [c] => c = '\n'
  | _ => false

/-- The lookahead alternatives: a marker starts here, or $ holds here. -/
def lookaheadOk (s : Str) : Bool :=
  (stripMarker s).isSome || dollarOk s

/-- Greedy \s* before the lookahead: try dropping k whitespace characters,
largest k first, and return the remainder at the first k whose lookahead
succeeds. -/
def pickK : Nat → Str → Option Str
  | 0, v => if lookaheadOk v then some v else none
  | k + 1, v => if lookaheadOk (v.drop (k + 1)) then some (v.drop (k + 1)) else pickK k v

/-- Resume point after the closing brace of a candidate match: the greedy
\s* followed by the zero-width lookahead. -/
def resumeAfter (v : Str) : Option Str :=
  pickK (v.takeWhile isRegexWs).length v

/-- Lazy .*? scan for the closing brace: the first closing brace whose
suffix satisfies the whitespace-plus-lookahead tail completes the match;
any other character, or a closing brace whose tail fails, is consumed into
the group. -/
def findClose : Str → Str → Option (Str × Str)
  | _, [] => none
  | acc, c :: v =>
    if c = rbc then
      match resumeAfter v with
      | some r => some (acc.reverse, r)
      | none => findClose (c :: acc) v
    else findClose (c :: acc) v

/-- Attempt the full pattern at the head of the input: marker, \s*, opening
brace, lazy body, closing brace, \s*, lookahead.  Returns the captured
group (with its braces) and the position where the scan resumes. -/
def tryMatch (s : Str) : Option (Str × Str) :=
  match stripMarker s with
  | none => none
  | some t =>
    match t.dropWhile isRegexWs with
    | c :: u =>
      if c = lbc then
        match findClose [] u with
        | some (body, r) => some (lbc :: body ++ [rbc], r)
        | none => none
      else none
    | [] => none

/-- Scan of re.findall: try the pattern at every position, emit the group of
each match and continue at the match end.  Fuel bounds the number of steps;
every step consumes at least one character, so input length plus one
suffices. -/
def scanF : Nat → Str → List Str
  | 0, _ => []
  | _ + 1, [] => []
  | f + 1, c :: rest =>
    match tryMatch (c :: rest) with
    | some (b, r) => b :: scanF f r
    | none => scanF f rest

/-- All candidate blocks of the response, in source order. -/
def scanBlocks (s : Str) : List Str := scanF (s.length + 1) s

/-! ## extract_questions (test4.py lines 102-120) -/

/-- One entry of st.session_state.quiz parsing_errors. -/
structure Diag where
  error_type : Str
  message : Str
  block : Str

/-- Body of the for loop of extract_questions over the candidate blocks:
a block that decodes is appended to the questions, a block that fails
decode is skipped and recorded as a diagnostic holding the raw block. -/
def extractLoop : List Str → List JVal × List Diag
  | [] => ([], [])
  | b :: rest =>
    let p := extractLoop rest
    match loads (normalizeBlock b) with
    | .ok v => (v :: p.1, p.2)
    | .error e => (p.1, ⟨S "JSON Decode", e, b⟩ :: p.2)

/-- extract_questions: returned question records and the diagnostics the
call appends to the session state.  The function is total: no input makes
it raise. -/
def extract_questions (response : Str) : List JVal × List Diag :=
  extractLoop (scanBlocks response)

/-- Successfully decoded blocks, in order; used to state that no further
filtering or validation happens after json.loads. -/
def decodeOks (blocks : List Str) : List JVal :=
  blocks.filterMap (fun b => (loads (normalizeBlock b)).toOption)

/-! ## json.dumps model (serializer; the repository has no re-serialization
code, this is modelled from the specification for the idempotence claim) -/

/-- Hex digit character for a value below 16. -/
def hexChar (n : Nat) : Char :=
  if n < 10 then Char.ofNat (48 + n) else Char.ofNat (87 + n)

/-- Four-digit hex rendering of a code point below 0x10000. -/
def hexDigits4 (n : Nat) : Str :=
  [hexChar (n / 4096 % 16), hexChar (n / 256 % 16), hexChar (n / 16 % 16), hexChar (n % 16)]

/-- Escaping of one character by json.dumps with the default ensure_ascii:
quote and backslash get short escapes, the common control characters get
short escapes, other controls and all non-ASCII characters get \uXXXX
(non-BMP characters as a surrogate pair), anything else is kept. -/
def escapeJsonChar (c : Char) : Str :=
  if c = '"' then [bsc, '"']
  else if c = bsc then [bsc, bsc]
  else if c = '\n' then [bsc, 'n']
  else if c = '\t' then [bsc, 't']
  else if c = '\r' then [bsc, 'r']
  else if c = Char.ofNat 8 then [bsc, 'b']
  else if c = Char.ofNat 12 then [bsc, 'f']
  else if c.toNat < 0x20 then bsc :: 'u' :: hexDigits4 c.toNat
  else if c.toNat < 0x7F then [c]
  else if c.toNat < 0x10000 then bsc :: 'u' :: hexDigits4 c.toNat
  else
    bsc :: 'u' :: hexDigits4 (0xD800 + (c.toNat - 0x10000) / 0x400) ++
      bsc :: 'u' :: hexDigits4 (0xDC00 + (c.toNat - 0x10000) % 0x400)

/-- Serialized JSON string with its quotes. -/
def dumpStr (s : Str) : Str :=
  '"' :: (s.map escapeJsonChar).flatten ++ ['"']

mutual

/-- Modelled from the spec: re-serialization of a decoded record, following
json.dumps with default separators.  Number lexemes are emitted as kept by
the decoder (the int/float repr normalization of Python is not modelled;
the claims only apply this to string-valued records). -/
def dumps : JVal → Str
  | .jstr s => dumpStr s
  | .jnum tok => tok
  | .jbool true => S "true"
  | .jbool false => S "false"
  | .jnull => S "null"
  | .jobj ms => lbc :: dumpMembers ms ++ [rbc]
  | .jarr vs => '[' :: dumpItems vs ++ [']']

/-- Members of a serialized object, separated by comma-space. -/
def dumpMembers : List (Str × JVal) → Str
  | [] => []
  | [(k, v)] => dumpStr k ++ ':' :: ' ' :: dumps v
  | (k, v) :: rest => dumpStr k ++ ':' :: ' ' :: dumps v ++ ',' :: ' ' :: dumpMembers rest

/-- Items of a serialized array, separated by comma-space. -/
def dumpItems : List JVal → Str
  | [] => []
  | [v] => dumps v
  | v :: rest => dumps v ++ ',' :: ' ' :: dumpItems rest

end

/-! ## Session state and the UI-layer operations -/

/-- The user_details mapping collected by the form. -/
structure UserDetails where
  name : Str
  grade : Nat
  subject : Str
  topic : Str
  difficulty : Str
  num_questions : Nat

/-- One entry of the history list appended by process_answer. -/
structure AnswerRecord where
  question : JVal
  user_answer : Option Str
  correct_answer : JVal
  is_correct : Bool

/-- st.session_state.quiz. -/
structure SessionState where
  api_key : Option Str
  user_details : Option UserDetails
  questions : List JVal
  current_q : Nat
  score : Nat
  difficulty : Str
  history : List AnswerRecord
  feedback : Str
  chat_history : List (Bool × Str)
  raw_response : Option Str
  parsing_errors : List Diag
  attempt_count : Nat

/-- Initial session state set up at process start (lines 11-25). -/
def initState : SessionState :=
  ⟨none, none, [], 0, 0, S "beginner", [], [], [], none, [], 0⟩

/-- Field access q[k] on a decoded record; none models the KeyError or the
non-dict TypeError path, both of which raise. -/
def jLookup (j : JVal) (k : Str) : Option JVal :=
  match j with
  | .jobj kvs => lookupKey kvs k
  | _ => none

/-- The .strip() call on a field value: only a string has strip, any other
value raises AttributeError, modelled as none. -/
def asStr : Option JVal → Option Str
  | some (.jstr s) => some s
  | _ => none

/-- generate_feedback (lines 211-237) viewed from the session state: the
external service reply (some text) is stored in feedback; a service error
(none) leaves feedback unchanged and shows an error. -/
def generate_feedback (fbReply : Option Str) (s : SessionState) : SessionState :=
  match fbReply with
  | some t => { s with feedback := t }
  | none => s

/-- process_answer (lines 191-209).  The result none models an exception
raised before any state mutation: user_answer is None (None.strip()), the
record has no Answer field or a non-string one (q[...].strip()), or no
Question field (q[...] in the appended dict).  All these raises happen
before the history append, so the state is unchanged in those cases.
fbReply is the oracle for the feedback service call triggered on the last
question. -/
def process_answer (q : JVal) (userAnswer : Option Str) (fbReply : Option Str)
    (s : SessionState) : Option SessionState :=
  match userAnswer with
  | none => none
  | some a =>
    match jLookup q (S "Answer") with
    | some (.jstr ansText) =>
      match jLookup q (S "Question") with
      | some qText =>
        let isCorrect := pyStrip a = pyStrip ansText
        let s1 := { s with history := s.history ++ [⟨qText, some a, .jstr ansText, isCorrect⟩] }
        let s2 := if isCorrect then { s1 with score := s1.score + 1 } else s1
        if s2.current_q < s2.questions.length - 1 then
          some { s2 with current_q := s2.current_q + 1 }
        else
          some (generate_feedback fbReply s2)
      | none => none
    | _ => none

/-- One user submission through the UI: the current question is read from
the state and passed to process_answer; an exception aborts the script run
with the state unchanged. -/
def submit (userAnswer : Option Str) (fbReply : Option Str) (s : SessionState) : SessionState :=
  match s.questions[s.current_q]? with
  | none => s
  | some q =>
    match process_answer q userAnswer fbReply s with
    | some s2 => s2
    | none => s

/-- A sequence of submissions. -/
def submitMany : List (Option Str × Option Str) → SessionState → SessionState
  | [], s => s
  | (ua, fb) :: rest, s => submitMany rest (submit ua fb s)

/-- Number of history entries marked correct. -/
def countCorrect (h : List AnswerRecord) : Nat :=
  (h.filter (fun r => r.is_correct)).length

/-- The Retake Quiz button handler (lines 315-323). -/
def retake_quiz (s : SessionState) : SessionState :=
  { s with questions := [], current_q := 0, score := 0, history := [], feedback := [] }

/-- The update block of generate_quiz on a successful generation
(lines 158-166), with qs the freshly generated questions. -/
def generate_quiz_update (qs : List JVal) (s : SessionState) : SessionState :=
  { s with questions := qs, current_q := 0, score := 0, history := [], feedback := [],
           attempt_count := 0 }

/-! ## generate_questions and the tenacity retry wrapper (lines 80-100) -/

/-- Outcome of one network call to the generation service. -/
inductive CallResult where
  | ok : Str → CallResult
  | err : Str → CallResult

/-- Body of generate_questions for one network call: on success the raw
response is stored, then extract_questions runs (its diagnostics accumulate
in the session state) and the records are returned; on a transport or
service exception the except block increments the attempt counter, shows
the error, and returns None.  The body therefore never lets an exception
escape, which is what the surrounding Except layer records. -/
def generate_questions_once (c : CallResult) (s : SessionState) :
    SessionState × Option (List JVal) :=
  match c with
  | .ok raw =>
    let p := extract_questions raw
    ({ s with raw_response := some raw, parsing_errors := s.parsing_errors ++ p.2 }, some p.1)
  | .err _ =>
    ({ s with attempt_count := s.attempt_count + 1 }, none)

/-- The tenacity retry decorator with stop_after_attempt: run the body; a
raised exception (the .error case) triggers another attempt while attempts
remain, a returned value (the .ok case, including a returned None) ends the
loop at once.  The result carries the final state, the outcome, and the
number of attempts performed. -/
def tenacityRun (body : CallResult → SessionState → SessionState × Except Str (Option (List JVal))) :
    Nat → List CallResult → SessionState →
    SessionState × Except Str (Option (List JVal)) × Nat
  | 0, _, s => (s, .error (S "RetryError"), 0)
  | _ + 1, [], s => (s, .error (S "no call outcome supplied"), 0)
  | n + 1, c :: cs, s =>
    match body c s with
    | (s1, .ok r) => (s1, .ok r, 1)
    | (s1, .error e) =>
      match n with
      | 0 => (s1, .error e, 1)
      | m + 1 =>
        let t := tenacityRun body (m + 1) cs s1
        (t.1, t.2.1, t.2.2 + 1)

/-- generate_questions: the body wrapped by tenacity with three attempts.
The internal try/except of the body converts every call failure into a
returned None, so the wrapper sees a normal return. -/
def generate_questions (calls : List CallResult) (s : SessionState) :
    SessionState × Except Str (Option (List JVal)) × Nat :=
  tenacityRun (fun c st => let p := generate_questions_once c st; (p.1, .ok p.2)) 3 calls s

/-! ## Well-formed question blocks and rendered inputs -/

/-- Characters that keep a text field inert for every stage of the pipeline:
no single or double quote, no backslash, no colon, no braces, no asterisk,
no control or whitespace-class surprises beyond the space.  Letters, digits,
space and common punctuation. -/
def okChar (c : Char) : Bool :=
  0x20 ≤ c.toNat && c.toNat ≤ 0x7E && c != sqc && c != '"' && c != bsc &&
    c != ':' && c != rbc && c != '*'

/-- A safe text field. -/
def SafeStr (s : Str) : Prop := ∀ c ∈ s, okChar c

instance (s : Str) : Decidable (SafeStr s) := by
  unfold SafeStr
  infer_instance

/-- A question record as generated content: prompt, four option texts, and
the answer text. -/
structure QRec where
  q : Str
  oa : Str
  ob : Str
  oc : Str
  od : Str
  ans : Str

/-- All six texts of a record are safe. -/
def QRec.Safe (r : QRec) : Prop :=
  SafeStr r.q ∧ SafeStr r.oa ∧ SafeStr r.ob ∧ SafeStr r.oc ∧ SafeStr r.od ∧ SafeStr r.ans

instance (r : QRec) : Decidable r.Safe := by
  unfold QRec.Safe
  infer_instance

/-- Text wrapped in single quotes. -/
def q1 (s : Str) : Str := sqc :: s ++ [sqc]

/-- Text wrapped in double quotes. -/
def q2 (s : Str) : Str := '"' :: s ++ ['"']

/-- One single-quoted member: quoted key, colon, space, quoted value. -/
def kvS (k v : Str) : Str := q1 k ++ ':' :: ' ' :: q1 v

/-- The Options object of a rendered block, single-quote dialect. -/
def renderOptions (r : QRec) : Str :=
  lbc :: (kvS (S "OptionA") r.oa ++ ',' :: ' ' :: kvS (S "OptionB") r.ob ++
    ',' :: ' ' :: kvS (S "OptionC") r.oc ++ ',' :: ' ' :: kvS (S "OptionD") r.od) ++ [rbc]

/-- Interior of a rendered block between its braces. -/
def renderMid (r : QRec) : Str :=
  kvS (S "Question") r.q ++ ',' :: ' ' :: (q1 (S "Options") ++ ':' :: ' ' :: renderOptions r) ++
    ',' :: ' ' :: kvS (S "Answer") r.ans

/-- A well-formed brace-delimited single-quoted question block. -/
def renderBlock (r : QRec) : Str :=
  lbc :: renderMid r ++ [rbc]

/-- Decimal digit characters of a number, most significant first; the Nat
argument is fuel (the number itself suffices since division by ten shrinks). -/
def natCharsF : Nat → Nat → Str
  | 0, _ => []
  | f + 1, n =>
    if n < 10 then [Nat.digitChar n]
    else natCharsF f (n / 10) ++ [Nat.digitChar (n % 10)]

/-- Decimal digits of an index. -/
def natChars (n : Nat) : Str := natCharsF (n + 1) n

/-- One marker-introduced segment of the response: the marker with the given
index digits, whitespace, the block, trailing whitespace. -/
def renderPart (ds ws1 : Str) (r : QRec) (ws2 : Str) : Str :=
  S "**Question" ++ ds ++ S "**" ++ ws1 ++ renderBlock r ++ ws2

/-- A response made of consecutive marker-introduced segments. -/
def renderParts : List (Str × Str × QRec × Str) → Str
  | [] => []
  | (ds, ws1, r, ws2) :: rest => renderPart ds ws1 r ws2 ++ renderParts rest

/-- The canonical well-formed response for a list of records: QuestionN
markers numbered from one, a newline before each block and after it. -/
def renderInput (rs : List QRec) : Str :=
  renderParts ((List.range rs.length).zip rs |>.map (fun p => (natChars (p.1 + 1), ['\n'], p.2, ['\n'])))

/-- The decoded JSON object a well-formed block denotes. -/
def toJVal (r : QRec) : JVal :=
  .jobj [(S "Question", .jstr r.q),
         (S "Options", .jobj [(S "OptionA", .jstr r.oa), (S "OptionB", .jstr r.ob),
                              (S "OptionC", .jstr r.oc), (S "OptionD", .jstr r.od)]),
         (S "Answer", .jstr r.ans)]

/-- One double-quoted member: quoted key, colon, space, quoted value; this is
both the normalized form of a single-quoted member and the json.dumps form. -/
def kvD (k v : Str) : Str := q2 k ++ ':' :: ' ' :: q2 v

/-- The Options object of a block in normalized double-quote form. -/
def renderOptionsD (r : QRec) : Str :=
  lbc :: (kvD (S "OptionA") r.oa ++ ',' :: ' ' :: kvD (S "OptionB") r.ob ++
    ',' :: ' ' :: kvD (S "OptionC") r.oc ++ ',' :: ' ' :: kvD (S "OptionD") r.od) ++ [rbc]

/-- Interior of a normalized block between its braces. -/
def renderMidD (r : QRec) : Str :=
  kvD (S "Question") r.q ++ ',' :: ' ' :: (q2 (S "Options") ++ ':' :: ' ' :: renderOptionsD r) ++
    ',' :: ' ' :: kvD (S "Answer") r.ans

/-- A block in normalized double-quote form. -/
def renderBlockD (r : QRec) : Str :=
  lbc :: renderMidD r ++ [rbc]

/-- Interior text of a candidate block that the lazy scan walks through
correctly: after every closing brace inside it the lookahead fails, because
the next character is neither whitespace (so the greedy whitespace run is
empty) nor the start of a marker, and the end anchor cannot hold there. -/
def GoodMid (mid : Str) : Prop :=
  ∀ x y, mid = x ++ rbc :: y → ∃ e z, y = e :: z ∧ isRegexWs e = false ∧ e ≠ '*'

/-- Conditions on one rendered segment: a nonempty digit index, whitespace
separators, and safe record texts. -/
def PartOk (p : Str × Str × QRec × Str) : Prop :=
  p.1 ≠ [] ∧ (∀ c ∈ p.1, c.isDigit = true) ∧ (∀ c ∈ p.2.1, isRegexWs c = true) ∧
    p.2.2.1.Safe ∧ (∀ c ∈ p.2.2.2, isRegexWs c = true)

/-- The decoded Options object of a record. -/
def optionsJ (r : QRec) : JVal :=
  .jobj [(S "OptionA", .jstr r.oa), (S "OptionB", .jstr r.ob),
         (S "OptionC", .jstr r.oc), (S "OptionD", .jstr r.od)]

/-- Number of entries of the Options object of a record, when present. -/
def optionsCount (j : JVal) : Option Nat :=
  match jLookup j (S "Options") with
  | some (.jobj os) => some os.length
  | _ => none

/-! # Helper lemmas -/

theorem scanF_nil (f : Nat) : scanF f [] = [] := by
  cases f <;> rfl

theorem takeWhile_append_all {p : Char → Bool} {xs : Str} (d : Char) (ys : Str)
    (h : ∀ a ∈ xs, p a = true) (hd : p d = false) :
    (xs ++ d :: ys).takeWhile p = xs := by
  induction xs with
  | nil => simp [List.takeWhile_cons, hd]
  | cons c cs ih =>
    have hc : p c = true := h c (by simp)
    simp [List.takeWhile_cons, hc, ih (fun a ha => h a (by simp [ha]))]

theorem dropWhile_append_all {p : Char → Bool} {xs : Str} (d : Char) (ys : Str)
    (h : ∀ a ∈ xs, p a = true) (hd : p d = false) :
    (xs ++ d :: ys).dropWhile p = d :: ys := by
  induction xs with
  | nil => simp [List.dropWhile_cons, hd]
  | cons c cs ih =>
    have hc : p c = true := h c (by simp)
    simp [List.dropWhile_cons, hc, ih (fun a ha => h a (by simp [ha]))]

theorem takeWhile_all {p : Char → Bool} {xs : Str} (h : ∀ a ∈ xs, p a = true) :
    xs.takeWhile p = xs := by
  induction xs with
  | nil => rfl
  | cons c cs ih =>
    have hc : p c = true := h c (by simp)
    simp [List.takeWhile_cons, hc, ih (fun a ha => h a (by simp [ha]))]

theorem dropWhile_all {p : Char → Bool} {xs : Str} (h : ∀ a ∈ xs, p a = true) :
    xs.dropWhile p = [] := by
  induction xs with
  | nil => rfl
  | cons c cs ih =>
    have hc : p c = true := h c (by simp)
    simp [List.dropWhile_cons, hc, ih (fun a ha => h a (by simp [ha]))]

theorem mem_of_mem_dropWhile {p : Char → Bool} {l : Str} {a : Char}
    (h : a ∈ l.dropWhile p) : a ∈ l :=
  (List.dropWhile_sublist p).subset h

/-- Facts about safe characters used throughout: a safe character is none of
the structurally active characters and is a printable ASCII character. -/
theorem okChar_facts {c : Char} (h : okChar c = true) :
    c ≠ sqc ∧ c ≠ '"' ∧ c ≠ bsc ∧ c ≠ ':' ∧ c ≠ rbc ∧ c ≠ '*' ∧
      0x20 ≤ c.toNat ∧ c.toNat ≤ 0x7E := by
  simp only [okChar, Bool.and_eq_true, decide_eq_true_eq, bne_iff_ne] at h
  refine ⟨?_, ?_, ?_, ?_, ?_, ?_, ?_, ?_⟩ <;> tauto

theorem SafeStr.head {c : Char} {s : Str} (h : SafeStr (c :: s)) : okChar c = true :=
  h c (by simp)

theorem SafeStr.restSafe {c : Char} {s : Str} (h : SafeStr (c :: s)) : SafeStr s :=
  fun a ha => h a (by simp [ha])

theorem psbF_safe (v : Str) (f : Nat) (rest : Str) (hv : SafeStr v) :
    psbF (f + v.length + 1) (v ++ '"' :: rest) = .ok (v, rest) := by
  induction v generalizing f with
  | nil => rfl
  | cons c v2 ih =>
    obtain ⟨h1, h2, h3, _, _, _, h7, _⟩ := okChar_facts hv.head
    show psbF ((f + v2.length + 1) + 1) (c :: (v2 ++ '"' :: rest)) = _
    rw [psbF.eq_def]
    simp only [h2, if_false, h3, if_false]
    have hctl : ¬(c.toNat < 0x20) := by omega
    simp only [hctl, if_false]
    rw [ih f hv.restSafe]
    rfl

theorem parseStringBody_safe (v : Str) (rest : Str) (hv : SafeStr v) :
    parseStringBody (v ++ '"' :: rest) = .ok (v, rest) := by
  have hl : (v ++ '"' :: rest).length + 1 = (rest.length + 1) + v.length + 1 := by
    simp [List.length_append]; omega
  rw [parseStringBody, hl, psbF_safe v (rest.length + 1) rest hv]

/-! ## Normalization identity on canonical double-quoted blocks -/

theorem replQuote_append (a b : Str) : replQuote (a ++ b) = replQuote a ++ replQuote b := by
  simp [replQuote]

theorem replQuote_cons (c : Char) (s : Str) :
    replQuote (c :: s) = (if c = sqc then '"' else c) :: replQuote s := by
  simp [replQuote]

theorem replQuote_of_no_sq {s : Str} (h : ∀ c ∈ s, c ≠ sqc) : replQuote s = s := by
  induction s with
  | nil => rfl
  | cons c cs ih =>
    rw [replQuote_cons]
    have : c ≠ sqc := h c (by simp)
    simp [this, ih (fun a ha => h a (by simp [ha]))]

theorem replQuote_safe {s : Str} (h : SafeStr s) : replQuote s = s :=
  replQuote_of_no_sq (fun c hc => (okChar_facts (h c hc)).1)

theorem qkGo_cons_nonword {c : Char} (h : isWordChar c = false) (rest : Str) :
    qkGo 0 (c :: rest) = c :: qkGo 0 rest := by
  rw [qkGo]
  simp [h]

theorem mem_head_or_of_append_cons {x : Char} {v : Str} {d : Char} {rs : Str}
    (hx : x ∈ v ++ d :: rs) : x ∈ v ∨ x = d ∨ x ∈ rs := by
  rcases List.mem_append.mp hx with h | h
  · exact Or.inl h
  · rcases List.mem_cons.mp h with h | h
    · exact Or.inr (Or.inl h)
    · exact Or.inr (Or.inr h)

/-- Key lemma for the key-quoting pass: a chunk with no colon, followed by a
boundary character that is neither a word character, nor whitespace, nor a
colon, passes through untouched and the scan continues at the boundary. -/
theorem qkGo_chunk (v : Str) (d : Char) (rs : Str)
    (hv : ∀ c ∈ v, c ≠ ':') (hd1 : isWordChar d = false) (hd2 : isRegexWs d = false)
    (hd3 : d ≠ ':') :
    qkGo 0 (v ++ d :: rs) = v ++ qkGo 0 (d :: rs) := by
  induction v with
  | nil => rfl
  | cons c v2 ih =>
    by_cases hw : isWordChar c = true
    · -- a match attempt at c fails: after the maximal word run and optional
      -- whitespace the next character is not a colon
      have key : ∀ a3, ((v2 ++ d :: rs).dropWhile isWordChar).dropWhile isRegexWs ≠ ':' :: a3 := by
        intro a3 hcontra
        rcases hw2 : v2.dropWhile isWordChar with _ | ⟨e, v3⟩
        · rw [List.dropWhile_append, hw2] at hcontra
          simp only [List.isEmpty_nil, if_true] at hcontra
          rw [List.dropWhile_cons_of_neg (by simp [hd1]),
              List.dropWhile_cons_of_neg (by simp [hd2])] at hcontra
          simp only [List.cons.injEq] at hcontra
          exact hd3 hcontra.1
        · rw [List.dropWhile_append, hw2] at hcontra
          simp only [List.isEmpty_cons, if_false, Bool.false_eq_true] at hcontra
          rw [List.dropWhile_append] at hcontra
          rcases hw3 : (e :: v3).dropWhile isRegexWs with _ | ⟨e2, v4⟩
          · rw [hw3] at hcontra
            simp only [List.isEmpty_nil, if_true] at hcontra
            rw [List.dropWhile_cons_of_neg (by simp [hd2])] at hcontra
            simp only [List.cons.injEq] at hcontra
            exact hd3 hcontra.1
          · rw [hw3] at hcontra
            simp only [List.isEmpty_cons, if_false, Bool.false_eq_true] at hcontra
            have he2 : e2 ∈ v2 := by
              have m1 : e2 ∈ (e :: v3).dropWhile isRegexWs := by rw [hw3]; simp
              have m2 : e2 ∈ e :: v3 := mem_of_mem_dropWhile m1
              have m3 : e2 ∈ v2.dropWhile isWordChar := by rw [hw2]; exact m2
              exact mem_of_mem_dropWhile m3
            simp only [List.cons_append, List.cons.injEq] at hcontra
            exact hv e2 (by simp [he2]) hcontra.1
      rw [List.cons_append, qkGo]
      simp only [hw, if_true]
      rw [ih (fun a ha => hv a (by simp [ha]))]
      rfl
    · rw [List.cons_append, qkGo_cons_nonword (by simpa using hw)]
      rw [ih (fun a ha => hv a (by simp [ha]))]
      rfl

theorem SafeStr.no_colon {s : Str} (h : SafeStr s) : ∀ c ∈ s, c ≠ ':' :=
  fun c hc => (okChar_facts (h c hc)).2.2.2.1

theorem qkGo_kvD (k v : Str) (hk : SafeStr k) (hv : SafeStr v) (rest : Str) :
    qkGo 0 (kvD k v ++ rest) = kvD k v ++ qkGo 0 rest := by
  have hqpass : ∀ t, qkGo 0 ('"' :: t) = '"' :: qkGo 0 t :=
    fun t => qkGo_cons_nonword (by decide) t
  have h1 : kvD k v ++ rest =
      '"' :: (k ++ '"' :: ':' :: ' ' :: '"' :: (v ++ '"' :: rest)) := by
    simp [kvD, q2]
  rw [h1, hqpass, qkGo_chunk k '"' _ hk.no_colon (by decide) (by decide) (by decide),
    hqpass, qkGo_cons_nonword (by decide), qkGo_cons_nonword (by decide), hqpass,
    qkGo_chunk v '"' _ hv.no_colon (by decide) (by decide) (by decide), hqpass]
  simp [kvD, q2]

theorem qkGo_optionsD (r : QRec) (h : r.Safe) (rest : Str) :
    qkGo 0 (renderOptionsD r ++ rest) = renderOptionsD r ++ qkGo 0 rest := by
  obtain ⟨_, h2, h3, h4, h5, _⟩ := h
  have hka : SafeStr (S "OptionA") := by decide
  have hkb : SafeStr (S "OptionB") := by decide
  have hkc : SafeStr (S "OptionC") := by decide
  have hkd : SafeStr (S "OptionD") := by decide
  have h1 : renderOptionsD r ++ rest =
      lbc :: (kvD (S "OptionA") r.oa ++ ',' :: ' ' :: (kvD (S "OptionB") r.ob ++
        ',' :: ' ' :: (kvD (S "OptionC") r.oc ++ ',' :: ' ' :: (kvD (S "OptionD") r.od ++
          rbc :: rest)))) := by
    simp [renderOptionsD]
  rw [h1, qkGo_cons_nonword (by decide), qkGo_kvD _ _ hka h2,
    qkGo_cons_nonword (by decide), qkGo_cons_nonword (by decide), qkGo_kvD _ _ hkb h3,
    qkGo_cons_nonword (by decide), qkGo_cons_nonword (by decide), qkGo_kvD _ _ hkc h4,
    qkGo_cons_nonword (by decide), qkGo_cons_nonword (by decide), qkGo_kvD _ _ hkd h5,
    qkGo_cons_nonword (by decide)]
  simp [renderOptionsD]

theorem qkGo_midD (r : QRec) (h : r.Safe) (rest : Str) :
    qkGo 0 (renderMidD r ++ rest) = renderMidD r ++ qkGo 0 rest := by
  have hkq : SafeStr (S "Question") := by decide
  have hko : SafeStr (S "Options") := by decide
  have hkans : SafeStr (S "Answer") := by decide
  have hqpass : ∀ t, qkGo 0 ('"' :: t) = '"' :: qkGo 0 t :=
    fun t => qkGo_cons_nonword (by decide) t
  have hsplit : renderMidD r ++ rest =
      kvD (S "Question") r.q ++ ',' :: ' ' :: ('"' :: (S "Options" ++ '"' :: ':' :: ' ' ::
        (renderOptionsD r ++ ',' :: ' ' :: (kvD (S "Answer") r.ans ++ rest)))) := by
    simp [renderMidD, q2]
  rw [hsplit, qkGo_kvD _ _ hkq h.1, qkGo_cons_nonword (by decide),
    qkGo_cons_nonword (by decide), hqpass,
    qkGo_chunk (S "Options") '"' _ hko.no_colon (by decide) (by decide) (by decide),
    hqpass, qkGo_cons_nonword (by decide), qkGo_cons_nonword (by decide),
    qkGo_optionsD r h, qkGo_cons_nonword (by decide),
    qkGo_cons_nonword (by decide), qkGo_kvD _ _ hkans h.2.2.2.2.2]
  simp [renderMidD, q2]

theorem quoteKeys_renderBlockD (r : QRec) (h : r.Safe) :
    quoteKeys (renderBlockD r) = renderBlockD r := by
  have hform : renderBlockD r = lbc :: (renderMidD r ++ [rbc]) := by
    simp [renderBlockD]
  rw [quoteKeys, hform, qkGo_cons_nonword (by decide), qkGo_midD r h,
    qkGo_cons_nonword (by decide)]
  rfl

theorem replQuote_q1 {s : Str} (h : SafeStr s) : replQuote (q1 s) = q2 s := by
  simp [q1, q2, replQuote_append, replQuote_cons, replQuote_safe h, sqc]
  rfl

theorem replQuote_kvS {k v : Str} (hk : SafeStr k) (hv : SafeStr v) :
    replQuote (kvS k v) = kvD k v := by
  simp [kvS, kvD, replQuote_append, replQuote_cons, replQuote_q1 hk, replQuote_q1 hv]
  decide

theorem replQuote_renderBlock (r : QRec) (h : r.Safe) :
    replQuote (renderBlock r) = renderBlockD r := by
  obtain ⟨h1, h2, h3, h4, h5, h6⟩ := h
  have hkq : SafeStr (S "Question") := by decide
  have hko : SafeStr (S "Options") := by decide
  have hka : SafeStr (S "Answer") := by decide
  have hoa : SafeStr (S "OptionA") := by decide
  have hob : SafeStr (S "OptionB") := by decide
  have hoc : SafeStr (S "OptionC") := by decide
  have hod : SafeStr (S "OptionD") := by decide
  simp only [renderBlock, renderMid, renderOptions, renderBlockD, renderMidD, renderOptionsD,
    replQuote_append, replQuote_cons, replQuote_kvS hkq h1, replQuote_kvS hka h6,
    replQuote_kvS hoa h2, replQuote_kvS hob h3, replQuote_kvS hoc h4, replQuote_kvS hod h5,
    replQuote_q1 hko]
  simp [sqc, replQuote, show lbc ≠ Char.ofNat 39 from by decide,
    show rbc ≠ Char.ofNat 39 from by decide, show ',' ≠ Char.ofNat 39 from by decide,
    show ' ' ≠ Char.ofNat 39 from by decide, show ':' ≠ Char.ofNat 39 from by decide]

theorem normalizeBlock_renderBlock (r : QRec) (h : r.Safe) :
    normalizeBlock (renderBlock r) = renderBlockD r := by
  rw [normalizeBlock, replQuote_renderBlock r h, quoteKeys_renderBlockD r h]

theorem skipWs_append_ws {sp : Str} (h : ∀ c ∈ sp, isJsonWs c = true) {d : Char}
    (hd : isJsonWs d = false) (rest : Str) : skipWs (sp ++ d :: rest) = d :: rest :=
  dropWhile_append_all d rest h hd

theorem skipWs_cons_nonws {c : Char} (h : isJsonWs c = false) (rest : Str) :
    skipWs (c :: rest) = c :: rest := by
  rw [skipWs, List.dropWhile_cons_of_neg (by simp [h])]

/-- Definitional unfolding of the value parser at positive fuel. -/
theorem parseCore_val (f : Nat) (s : Str) :
    parseCore (f + 1) (.val s) =
      (match skipWs s with
        | [] => .error (S "Expecting value")
        | c :: r =>
          if c = '"' then (parseStringBody r).map (fun p => (.jstr p.1, p.2))
          else if c = lbc then parseCore f (.mems r [])
          else if c = '[' then parseCore f (.items r [])
          else
            match c :: r with
            | 't' :: 'r' :: 'u' :: 'e' :: r2 => .ok (.jbool true, r2)
            | 'f' :: 'a' :: 'l' :: 's' :: 'e' :: r2 => .ok (.jbool false, r2)
            | 'n' :: 'u' :: 'l' :: 'l' :: r2 => .ok (.jnull, r2)
            | 'N' :: 'a' :: 'N' :: r2 => .ok (.jnum (S "NaN"), r2)
            | 'I' :: 'n' :: 'f' :: 'i' :: 'n' :: 'i' :: 't' :: 'y' :: r2 => .ok (.jnum (S "Infinity"), r2)
            | '-' :: 'I' :: 'n' :: 'f' :: 'i' :: 'n' :: 'i' :: 't' :: 'y' :: r2 =>
              .ok (.jnum (S "-Infinity"), r2)
            | s2 =>
              match lexNumber s2 with
              | some (tok, rest) => .ok (.jnum tok, rest)
              | none => .error (S "Expecting value")) := rfl

/-- Definitional unfolding of the object-member parser at positive fuel. -/
theorem parseCore_mems (f : Nat) (s : Str) (acc : List (Str × JVal)) :
    parseCore (f + 1) (.mems s acc) =
      (match skipWs s with
        | c :: r =>
          if c = '"' then
            match parseStringBody r with
            | .error e => .error e
            | .ok (k, r1) =>
              match skipWs r1 with
              | ':' :: r2 =>
                match parseCore f (.val r2) with
                | .error e => .error e
                | .ok (v, r3) =>
                  match skipWs r3 with
                  | ',' :: r4 => parseCore f (.mems r4 (insertKey acc k v))
                  | c2 :: r4 =>
                    if c2 = rbc then .ok (.jobj (insertKey acc k v), r4)
                    else .error (S "Expecting , delimiter")
                  | [] => .error (S "Expecting , delimiter")
              | _ => .error (S "Expecting : delimiter")
          else if c = rbc ∧ acc.isEmpty then .ok (.jobj [], r)
          else .error (S "Expecting property name enclosed in double quotes")
        | [] => .error (S "Expecting property name enclosed in double quotes")) := rfl

/-- Parsing a safe double-quoted string value after optional whitespace. -/
theorem val_str (f : Nat) (sp v rest : Str) (hsp : ∀ c ∈ sp, isJsonWs c = true)
    (hv : SafeStr v) :
    parseCore (f + 1) (.val (sp ++ '"' :: (v ++ '"' :: rest))) = .ok (.jstr v, rest) := by
  rw [parseCore_val, skipWs_append_ws hsp (by decide) (v ++ '"' :: rest)]
  show Except.map (fun p => (JVal.jstr p.1, p.2)) (parseStringBody (v ++ '"' :: rest)) = _
  rw [parseStringBody_safe v rest hv]
  rfl

/-- Variant of parseStringBody_safe with the continuation quantified, for use
as a rewrite rule. -/
theorem parseStringBody_safe2 (v : Str) (hv : SafeStr v) :
    ∀ rest, parseStringBody (v ++ '"' :: rest) = .ok (v, rest) :=
  fun rest => parseStringBody_safe v rest hv

/-- Variant of val_str with the continuation quantified. -/
theorem val_str2 (f : Nat) (sp v : Str) (hsp : ∀ c ∈ sp, isJsonWs c = true)
    (hv : SafeStr v) :
    ∀ rest, parseCore (f + 1) (.val (sp ++ '"' :: (v ++ '"' :: rest))) = .ok (.jstr v, rest) :=
  fun rest => val_str f sp v rest hsp hv

/-- One string-valued member followed by a comma: the member is consumed,
its key inserted, and the loop continues after the comma. -/
theorem mems_str_comma (f : Nat) (sp k v more : Str) (acc : List (Str × JVal))
    (hsp : ∀ c ∈ sp, isJsonWs c = true) (hk : SafeStr k) (hv : SafeStr v) :
    parseCore (f + 2) (.mems (sp ++ (kvD k v ++ ',' :: more)) acc) =
      parseCore (f + 1) (.mems more (insertKey acc k (.jstr v))) := by
  have hshape : sp ++ (kvD k v ++ ',' :: more) =
      sp ++ '"' :: (k ++ '"' :: ':' :: (' ' :: '"' :: (v ++ '"' :: ',' :: more))) := by
    simp [kvD, q2]
  rw [hshape]
  rw [show (f + 2 : Nat) = (f + 1) + 1 from rfl, parseCore_mems,
    skipWs_append_ws hsp (by decide)]
  simp only [if_pos rfl, parseStringBody_safe2 k hk,
    skipWs_cons_nonws (show isJsonWs ':' = false from by decide),
    show ∀ t, (' ' :: '"' :: (v ++ '"' :: ',' :: t) : Str) =
      [' '] ++ '"' :: (v ++ '"' :: ',' :: t) from fun t => rfl,
    val_str2 f [' '] v (by decide) hv,
    skipWs_cons_nonws (show isJsonWs ',' = false from by decide)]
  simp

/-- Final string-valued member followed by the closing brace: the object is
complete. -/
theorem mems_str_close (f : Nat) (sp k v rest : Str) (acc : List (Str × JVal))
    (hsp : ∀ c ∈ sp, isJsonWs c = true) (hk : SafeStr k) (hv : SafeStr v) :
    parseCore (f + 2) (.mems (sp ++ (kvD k v ++ rbc :: rest)) acc) =
      .ok (.jobj (insertKey acc k (.jstr v)), rest) := by
  have hshape : sp ++ (kvD k v ++ rbc :: rest) =
      sp ++ '"' :: (k ++ '"' :: ':' :: (' ' :: '"' :: (v ++ '"' :: rbc :: rest))) := by
    simp [kvD, q2]
  rw [hshape]
  rw [show (f + 2 : Nat) = (f + 1) + 1 from rfl, parseCore_mems,
    skipWs_append_ws hsp (by decide)]
  simp only [if_pos rfl, parseStringBody_safe2 k hk,
    skipWs_cons_nonws (show isJsonWs ':' = false from by decide),
    show ∀ t, (' ' :: '"' :: (v ++ '"' :: rbc :: t) : Str) =
      [' '] ++ '"' :: (v ++ '"' :: rbc :: t) from fun t => rfl,
    val_str2 f [' '] v (by decide) hv,
    skipWs_cons_nonws (show isJsonWs rbc = false from by decide)]
  rfl

/-- Parsing the Options object value after optional whitespace. -/
theorem val_optionsD (f : Nat) (sp : Str) (r : QRec) (rest : Str)
    (hsp : ∀ c ∈ sp, isJsonWs c = true) (h : r.Safe) :
    parseCore (f + 6) (.val (sp ++ (renderOptionsD r ++ rest))) = .ok (optionsJ r, rest) := by
  obtain ⟨_, h2, h3, h4, h5, _⟩ := h
  have hshape : sp ++ (renderOptionsD r ++ rest) =
      sp ++ lbc :: ([] ++ (kvD (S "OptionA") r.oa ++ ',' ::
        ([' '] ++ (kvD (S "OptionB") r.ob ++ ',' ::
          ([' '] ++ (kvD (S "OptionC") r.oc ++ ',' ::
            ([' '] ++ (kvD (S "OptionD") r.od ++ rbc :: rest)))))))) := by
    simp [renderOptionsD]
  rw [hshape, show (f + 6 : Nat) = (f + 5) + 1 from rfl, parseCore_val,
    skipWs_append_ws hsp (by decide)]
  show parseCore (f + 5) (.mems ([] ++ (kvD (S "OptionA") r.oa ++ ',' ::
        ([' '] ++ (kvD (S "OptionB") r.ob ++ ',' ::
          ([' '] ++ (kvD (S "OptionC") r.oc ++ ',' ::
            ([' '] ++ (kvD (S "OptionD") r.od ++ rbc :: rest)))))))) []) = _
  rw [show (f + 5 : Nat) = (f + 3) + 2 from rfl,
    mems_str_comma (f + 3) [] (S "OptionA") r.oa _ _ (by decide) (by decide) h2,
    show ((f + 3) + 1 : Nat) = (f + 2) + 2 from rfl,
    mems_str_comma (f + 2) [' '] (S "OptionB") r.ob _ _ (by decide) (by decide) h3,
    show ((f + 2) + 1 : Nat) = (f + 1) + 2 from rfl,
    mems_str_comma (f + 1) [' '] (S "OptionC") r.oc _ _ (by decide) (by decide) h4,
    show ((f + 1) + 1 : Nat) = f + 2 from rfl,
    mems_str_close f [' '] (S "OptionD") r.od _ _ (by decide) (by decide) h5]
  rfl

/-- Variant of val_optionsD with the continuation quantified. -/
theorem val_optionsD2 (f : Nat) (sp : Str) (r : QRec)
    (hsp : ∀ c ∈ sp, isJsonWs c = true) (h : r.Safe) :
    ∀ rest, parseCore (f + 6) (.val (sp ++ (renderOptionsD r ++ rest))) = .ok (optionsJ r, rest) :=
  fun rest => val_optionsD f sp r rest hsp h

/-- Parsing a full normalized block: the decoded record is the canonical
object of the record. -/
theorem val_blockD (f : Nat) (sp : Str) (r : QRec) (rest : Str)
    (hsp : ∀ c ∈ sp, isJsonWs c = true) (h : r.Safe) :
    parseCore (f + 9) (.val (sp ++ (renderBlockD r ++ rest))) = .ok (toJVal r, rest) := by
  have hshape : sp ++ (renderBlockD r ++ rest) =
      sp ++ lbc :: ([] ++ (kvD (S "Question") r.q ++ ',' ::
        ([' '] ++ ('"' :: (S "Options" ++ '"' :: ':' ::
          (' ' :: (renderOptionsD r ++ ',' ::
            ([' '] ++ (kvD (S "Answer") r.ans ++ rbc :: rest))))))))) := by
    simp [renderBlockD, renderMidD, q2]
  rw [hshape, show (f + 9 : Nat) = (f + 8) + 1 from rfl, parseCore_val,
    skipWs_append_ws hsp (by decide)]
  show parseCore (f + 8) (.mems ([] ++ (kvD (S "Question") r.q ++ ',' ::
        ([' '] ++ ('"' :: (S "Options" ++ '"' :: ':' ::
          (' ' :: (renderOptionsD r ++ ',' ::
            ([' '] ++ (kvD (S "Answer") r.ans ++ rbc :: rest))))))))) []) = _
  rw [show (f + 8 : Nat) = (f + 6) + 2 from rfl,
    mems_str_comma (f + 6) [] (S "Question") r.q _ _ (by decide) (by decide) h.1,
    show ((f + 6) + 1 : Nat) = (f + 6) + 1 from rfl, parseCore_mems,
    skipWs_append_ws (show ∀ c ∈ ([' '] : Str), isJsonWs c = true from by decide) (by decide)]
  simp only [if_pos rfl, parseStringBody_safe2 (S "Options") (by decide),
    skipWs_cons_nonws (show isJsonWs ':' = false from by decide),
    show ∀ t, (' ' :: (renderOptionsD r ++ t) : Str) = [' '] ++ (renderOptionsD r ++ t)
      from fun t => rfl,
    val_optionsD2 f [' '] r (by decide) h,
    skipWs_cons_nonws (show isJsonWs ',' = false from by decide)]
  rw [show ((f + 6) : Nat) = (f + 4) + 2 from rfl,
    mems_str_close (f + 4) [' '] (S "Answer") r.ans _ _ (by decide) (by decide) h.2.2.2.2.2]
  rfl

theorem renderBlockD_len (r : QRec) : 9 ≤ (renderBlockD r).length + 1 := by
  simp [renderBlockD, renderMidD, kvD, q2, renderOptionsD, List.length_append]
  omega

/-- json.loads on a normalized canonical block yields the canonical object. -/
theorem loads_renderBlockD (r : QRec) (h : r.Safe) : loads (renderBlockD r) = .ok (toJVal r) := by
  have hp : parseCore ((renderBlockD r).length + 1) (.val (renderBlockD r)) =
      .ok (toJVal r, []) := by
    have hb := val_blockD ((renderBlockD r).length + 1 - 9) [] r [] (by simp) h
    rw [show ([] ++ (renderBlockD r ++ []) : Str) = renderBlockD r from by simp] at hb
    rw [show ((renderBlockD r).length + 1 - 9) + 9 = (renderBlockD r).length + 1 from by
      have := renderBlockD_len r
      omega] at hb
    exact hb
  rw [loads, hp]
  rfl

/-! ## Segmentation lemmas -/

theorem markerKey_cons (t : Str) :
    S "**Question" ++ t = '*' :: ('*' :: 'Q' :: 'u' :: 'e' :: 's' :: 't' :: 'i' :: 'o' :: 'n' :: t) := rfl

theorem stripMarker_render (ds tail : Str) (hne : ds ≠ []) (hdig : ∀ c ∈ ds, c.isDigit = true) :
    stripMarker (S "**Question" ++ (ds ++ (S "**" ++ tail))) = some tail := by
  rw [markerKey_cons]
  show (if ('*' : Char) = '*' ∧ ('*' : Char) = '*' ∧ ('Q' : Char) = 'Q' ∧ ('u' : Char) = 'u' ∧
      ('e' : Char) = 'e' ∧ ('s' : Char) = 's' ∧ ('t' : Char) = 't' ∧ ('i' : Char) = 'i' ∧
      ('o' : Char) = 'o' ∧ ('n' : Char) = 'n' then
      if (((ds ++ (S "**" ++ tail))).takeWhile Char.isDigit).isEmpty then none
      else
        match ((ds ++ (S "**" ++ tail))).dropWhile Char.isDigit with
        | u1 :: u2 :: u => if u1 = '*' ∧ u2 = '*' then some u else none
        | _ => none
    else none) = some tail
  rw [if_pos (by simp), show S "**" ++ tail = '*' :: '*' :: tail from rfl,
    takeWhile_append_all '*' ('*' :: tail) hdig (by decide),
    dropWhile_append_all '*' ('*' :: tail) hdig (by decide)]
  rw [if_neg (by simp [hne])]
  rfl

theorem stripMarker_not_star {c : Char} (hc : c ≠ '*') (z : Str) :
    stripMarker (c :: z) = none := by
  rw [stripMarker.eq_def]
  split
  · next heq =>
    injection heq with h1 _
    rw [if_neg (by simp [← h1, hc])]
  · rfl

theorem stripMarker_nil : stripMarker [] = none := rfl

theorem stripMarker_isSome_shape {v : Str} (h : (stripMarker v).isSome = true) :
    ∃ z, v = '*' :: z := by
  match v with
  | [] => rw [stripMarker_nil] at h; exact absurd h (by decide)
  | c :: z =>
    by_cases hc : c = '*'
    · exact ⟨z, by rw [hc]⟩
    · rw [stripMarker_not_star hc] at h; exact absurd h (by decide)

theorem dollarOk_two (c d : Char) (w : Str) : dollarOk (c :: d :: w) = false := rfl

theorem dollarOk_single {c : Char} (hc : c ≠ '\n') : dollarOk [c] = false := by
  show (decide (c = '\n')) = false
  simp [hc]

theorem lookaheadOk_nonmarker {c : Char} (hws : isRegexWs c = false) (hstar : c ≠ '*')
    (z : Str) : lookaheadOk (c :: z) = false := by
  rw [lookaheadOk, stripMarker_not_star hstar]
  cases z with
  | nil =>
    have hc : c ≠ '\n' := by
      intro he
      rw [he] at hws
      exact absurd hws (by decide)
    rw [dollarOk_single hc]
    rfl
  | cons d w =>
    rw [dollarOk_two]
    rfl

theorem resumeAfter_none_inner {c : Char} (hws : isRegexWs c = false) (hstar : c ≠ '*')
    (z : Str) : resumeAfter (c :: z) = none := by
  rw [resumeAfter, List.takeWhile_cons_of_neg (by simp [hws])]
  show pickK 0 (c :: z) = none
  rw [pickK]
  rw [lookaheadOk_nonmarker hws hstar]
  rfl

theorem lookaheadOk_nil : lookaheadOk [] = true := rfl

theorem resumeAfter_ws_rest (ws2 rest : Str) (hws : ∀ c ∈ ws2, isRegexWs c = true)
    (hrest : rest = [] ∨ (stripMarker rest).isSome = true) :
    resumeAfter (ws2 ++ rest) = some rest := by
  have hlook : lookaheadOk rest = true := by
    rcases hrest with h | h
    · rw [h]; exact lookaheadOk_nil
    · rw [lookaheadOk, h]; rfl
  have htake : (ws2 ++ rest).takeWhile isRegexWs = ws2 := by
    rcases hrest with h | h
    · rw [h, List.append_nil]; exact takeWhile_all hws
    · obtain ⟨z, hz⟩ := stripMarker_isSome_shape h
      rw [hz]
      exact takeWhile_append_all '*' z hws (by decide)
  rw [resumeAfter, htake]
  cases hl : ws2.length with
  | zero =>
    have : ws2 = [] := List.length_eq_zero.mp hl
    subst this
    rw [pickK]
    simp only [List.drop_zero, List.nil_append]
    rw [hlook]
    rfl
  | succ n =>
    rw [pickK]
    have hdrop : (ws2 ++ rest).drop (n + 1) = rest := by
      rw [← hl]
      exact List.drop_left ws2 rest
    rw [hdrop, hlook]
    rfl

theorem findClose_cons (acc : Str) (c : Char) (v : Str) :
    findClose acc (c :: v) =
      if c = rbc then
        match resumeAfter v with
        | some r => some (acc.reverse, r)
        | none => findClose (c :: acc) v
      else findClose (c :: acc) v := rfl

theorem GoodMid.restGood {c : Char} {mid : Str} (h : GoodMid (c :: mid)) : GoodMid mid :=
  fun x y hxy => h (c :: x) y (by rw [hxy]; rfl)

/-- The lazy scan consumes a good interior completely and stops at the true
closing brace, resuming where the whitespace-plus-lookahead tail says. -/
theorem findClose_mid (mid : Str) : ∀ (acc tail r : Str), GoodMid mid →
    resumeAfter tail = some r →
    findClose acc (mid ++ rbc :: tail) = some (acc.reverse ++ mid, r) := by
  induction mid with
  | nil =>
    intro acc tail r _ hres
    rw [List.nil_append, findClose_cons, if_pos rfl, hres]
    simp
  | cons c mid2 ih =>
    intro acc tail r hgood hres
    by_cases hc : c = rbc
    · subst hc
      obtain ⟨e, z, hz, hews, hestar⟩ := hgood [] mid2 rfl
      rw [List.cons_append, findClose_cons, if_pos rfl]
      have hnone : resumeAfter (mid2 ++ rbc :: tail) = none := by
        rw [hz, List.cons_append]
        exact resumeAfter_none_inner hews hestar _
      rw [hnone, ih (rbc :: acc) tail r hgood.restGood hres]
      simp
    · rw [List.cons_append, findClose_cons, if_neg hc,
        ih (c :: acc) tail r hgood.restGood hres]
      simp

/-- The full pattern succeeds on a well-formed rendered segment and resumes
exactly at the following marker or end. -/
theorem tryMatch_part (ds ws1 mid ws2 rest : Str)
    (hne : ds ≠ []) (hdig : ∀ c ∈ ds, c.isDigit = true)
    (hws1 : ∀ c ∈ ws1, isRegexWs c = true) (hmid : GoodMid mid)
    (hws2 : ∀ c ∈ ws2, isRegexWs c = true)
    (hrest : rest = [] ∨ (stripMarker rest).isSome = true) :
    tryMatch (S "**Question" ++ (ds ++ (S "**" ++
        (ws1 ++ (lbc :: (mid ++ (rbc :: (ws2 ++ rest)))))))) =
      some (lbc :: (mid ++ [rbc]), rest) := by
  rw [tryMatch, stripMarker_render ds _ hne hdig]
  show (match (ws1 ++ (lbc :: (mid ++ (rbc :: (ws2 ++ rest))))).dropWhile isRegexWs with
    | c :: u =>
      if c = lbc then
        match findClose [] u with
        | some (body, r) => some (lbc :: body ++ [rbc], r)
        | none => none
      else none
    | [] => none) = some (lbc :: (mid ++ [rbc]), rest)
  rw [dropWhile_append_all lbc _ hws1 (by decide)]
  show (if lbc = lbc then
      match findClose [] (mid ++ (rbc :: (ws2 ++ rest))) with
      | some (body, r) => some (lbc :: body ++ [rbc], r)
      | none => none
    else none) = some (lbc :: (mid ++ [rbc]), rest)
  rw [if_pos rfl,
    findClose_mid mid [] (ws2 ++ rest) rest hmid (resumeAfter_ws_rest ws2 rest hws2 hrest)]
  simp

theorem sep_unique {a : Char} {P : Str} (hP : a ∉ P) {Q : Str} (hQ : a ∉ Q) :
    ∀ x y : Str, P ++ a :: Q = x ++ a :: y → x = P ∧ y = Q := by
  induction P with
  | nil =>
    intro x y h
    cases x with
    | nil =>
      simp only [List.nil_append, List.cons.injEq] at h
      exact ⟨rfl, h.2.symm⟩
    | cons c x2 =>
      simp only [List.nil_append, List.cons_append, List.cons.injEq] at h
      exact absurd (h.2 ▸ (by simp : a ∈ x2 ++ a :: y)) hQ
  | cons p P2 ih =>
    intro x y h
    cases x with
    | nil =>
      simp only [List.cons_append, List.nil_append, List.cons.injEq] at h
      exact absurd (by simp [h.1] : a ∈ p :: P2) hP
    | cons c x2 =>
      simp only [List.cons_append, List.cons.injEq] at h
      obtain ⟨h1, h2⟩ := ih (fun hm => hP (by simp [hm])) x2 y h.2
      exact ⟨by rw [h1, h.1], h2⟩

theorem not_mem_q1 {s : Str} (h : SafeStr s) : rbc ∉ q1 s := by
  intro hm
  rw [q1] at hm
  rcases List.mem_cons.mp hm with h1 | h1
  · exact absurd h1 (by decide)
  · rcases List.mem_append.mp h1 with h2 | h2
    · exact absurd rfl (okChar_facts (h rbc h2)).2.2.2.2.1
    · rcases List.mem_singleton.mp h2 with h3
      exact absurd h3 (by decide)

theorem not_mem_kvS {k v : Str} (hk : SafeStr k) (hv : SafeStr v) : rbc ∉ kvS k v := by
  intro hm
  rw [kvS] at hm
  rcases List.mem_append.mp hm with h1 | h1
  · exact not_mem_q1 hk h1
  · rcases List.mem_cons.mp h1 with h2 | h2
    · exact absurd h2 (by decide)
    · rcases List.mem_cons.mp h2 with h3 | h3
      · exact absurd h3 (by decide)
      · exact not_mem_q1 hv h3

/-- The interior of a rendered block is good for the lazy scan: its only
closing brace, the one ending Options, is followed by a comma. -/
theorem renderMid_good (r : QRec) (h : r.Safe) : GoodMid (renderMid r) := by
  obtain ⟨h1, h2, h3, h4, h5, h6⟩ := h
  intro x y hxy
  have hshape : renderMid r =
      (kvS (S "Question") r.q ++ ',' :: ' ' :: (q1 (S "Options") ++ ':' :: ' ' ::
        (lbc :: (kvS (S "OptionA") r.oa ++ ',' :: ' ' :: kvS (S "OptionB") r.ob ++
          ',' :: ' ' :: kvS (S "OptionC") r.oc ++ ',' :: ' ' :: kvS (S "OptionD") r.od)))) ++
      rbc :: (',' :: ' ' :: kvS (S "Answer") r.ans) := by
    simp [renderMid, renderOptions, q1]
  have hkq : SafeStr (S "Question") := by decide
  have hko : SafeStr (S "Options") := by decide
  have hka : SafeStr (S "Answer") := by decide
  have hoa : SafeStr (S "OptionA") := by decide
  have hob : SafeStr (S "OptionB") := by decide
  have hoc : SafeStr (S "OptionC") := by decide
  have hod : SafeStr (S "OptionD") := by decide
  have hPA : rbc ∉ (kvS (S "Question") r.q ++ ',' :: ' ' :: (q1 (S "Options") ++ ':' :: ' ' ::
      (lbc :: (kvS (S "OptionA") r.oa ++ ',' :: ' ' :: kvS (S "OptionB") r.ob ++
        ',' :: ' ' :: kvS (S "OptionC") r.oc ++ ',' :: ' ' :: kvS (S "OptionD") r.od)))) := by
    intro hm
    simp only [List.mem_append, List.mem_cons] at hm
    simp [not_mem_kvS hkq h1, not_mem_kvS hoa h2, not_mem_kvS hob h3, not_mem_kvS hoc h4,
      not_mem_kvS hod h5, not_mem_q1 hko, show rbc ≠ ',' from by decide,
      show rbc ≠ ' ' from by decide, show rbc ≠ ':' from by decide,
      show rbc ≠ lbc from by decide] at hm
  have hQB : rbc ∉ (',' :: ' ' :: kvS (S "Answer") r.ans) := by
    intro hm
    simp only [List.mem_cons] at hm
    simp [not_mem_kvS hka h6, show rbc ≠ ',' from by decide,
      show rbc ≠ ' ' from by decide] at hm
  rw [hshape] at hxy
  obtain ⟨_, hy⟩ := sep_unique hPA hQB x y hxy
  exact ⟨',', ' ' :: kvS (S "Answer") r.ans, by rw [hy], by decide, by decide⟩

theorem scanF_cons (f : Nat) (c : Char) (rest : Str) :
    scanF (f + 1) (c :: rest) =
      match tryMatch (c :: rest) with
      | some (b, r) => b :: scanF f r
      | none => scanF f rest := rfl

theorem renderParts_shape (ds ws1 : Str) (r : QRec) (ws2 : Str)
    (ps : List (Str × Str × QRec × Str)) :
    renderPart ds ws1 r ws2 ++ renderParts ps =
      S "**Question" ++ (ds ++ (S "**" ++ (ws1 ++ (lbc ::
        (renderMid r ++ (rbc :: (ws2 ++ renderParts ps))))))) := by
  simp [renderPart, renderBlock]

theorem renderParts_marker (ps : List (Str × Str × QRec × Str)) (h : ∀ p ∈ ps, PartOk p) :
    renderParts ps = [] ∨ (stripMarker (renderParts ps)).isSome = true := by
  cases ps with
  | nil => exact Or.inl rfl
  | cons p ps2 =>
    right
    obtain ⟨ds, ws1, r, ws2⟩ := p
    have hp := h (ds, ws1, r, ws2) (by simp)
    rw [show renderParts ((ds, ws1, r, ws2) :: ps2) =
        renderPart ds ws1 r ws2 ++ renderParts ps2 from rfl, renderParts_shape,
      stripMarker_render ds _ hp.1 hp.2.1]
    rfl

theorem renderPart_ne_nil (ds ws1 : Str) (r : QRec) (ws2 : Str) :
    1 ≤ (renderPart ds ws1 r ws2).length := by
  simp [renderPart, List.length_append, S]

theorem renderParts_len (ps : List (Str × Str × QRec × Str)) :
    ps.length ≤ (renderParts ps).length := by
  induction ps with
  | nil => simp [renderParts]
  | cons p ps2 ih =>
    obtain ⟨ds, ws1, r, ws2⟩ := p
    rw [show renderParts ((ds, ws1, r, ws2) :: ps2) =
        renderPart ds ws1 r ws2 ++ renderParts ps2 from rfl]
    simp only [List.length_cons, List.length_append]
    have := renderPart_ne_nil ds ws1 r ws2
    omega

/-- The full scan of a concatenation of well-formed segments returns exactly
the blocks, in order. -/
theorem scanF_parts (ps : List (Str × Str × QRec × Str)) : ∀ (f : Nat),
    (∀ p ∈ ps, PartOk p) →
    scanF (f + ps.length) (renderParts ps) = ps.map (fun p => renderBlock p.2.2.1) := by
  induction ps with
  | nil => intro f _; exact scanF_nil f
  | cons p ps2 ih =>
    intro f hok
    obtain ⟨ds, ws1, r, ws2⟩ := p
    have hp : PartOk (ds, ws1, r, ws2) := hok _ (by simp)
    have hrec : ∀ q ∈ ps2, PartOk q := fun q hq => hok q (by simp [hq])
    simp only [List.length_cons, List.map_cons]
    rw [show renderParts ((ds, ws1, r, ws2) :: ps2) =
        renderPart ds ws1 r ws2 ++ renderParts ps2 from rfl,
      show f + (ps2.length + 1) = (f + ps2.length) + 1 from rfl,
      renderParts_shape, markerKey_cons, scanF_cons, ← markerKey_cons,
      tryMatch_part ds ws1 (renderMid r) ws2 (renderParts ps2) hp.1 hp.2.1 hp.2.2.1
        (renderMid_good r hp.2.2.2.1) hp.2.2.2.2 (renderParts_marker ps2 hrec)]
    show renderBlock r :: scanF (f + ps2.length) (renderParts ps2) = _
    rw [ih f hrec]

/-- Segmentation of a response made of well-formed segments: re.findall
returns exactly the blocks, in source order. -/
theorem scanBlocks_renderParts (ps : List (Str × Str × QRec × Str))
    (h : ∀ p ∈ ps, PartOk p) :
    scanBlocks (renderParts ps) = ps.map (fun p => renderBlock p.2.2.1) := by
  rw [scanBlocks,
    show (renderParts ps).length + 1 =
      ((renderParts ps).length + 1 - ps.length) + ps.length from by
        have := renderParts_len ps
        omega]
  exact scanF_parts ps _ h

theorem digitChar_isDigit {n : Nat} (h : n < 10) : (Nat.digitChar n).isDigit = true := by
  interval_cases n <;> rfl

theorem natCharsF_spec : ∀ (f n : Nat), n < f →
    natCharsF f n ≠ [] ∧ ∀ c ∈ natCharsF f n, c.isDigit = true := by
  intro f
  induction f with
  | zero => intro n h; omega
  | succ f2 ih =>
    intro n h
    by_cases hn : n < 10
    · rw [natCharsF, if_pos hn]
      exact ⟨by simp, by simp [digitChar_isDigit hn]⟩
    · rw [natCharsF, if_neg hn]
      have hd : n / 10 < f2 := by omega
      obtain ⟨hne, hdig⟩ := ih (n / 10) hd
      constructor
      · simp
      · intro c hc
        rcases List.mem_append.mp hc with hc | hc
        · exact hdig c hc
        · rw [List.mem_singleton.mp hc]
          exact digitChar_isDigit (by omega)

theorem natChars_ne_nil (n : Nat) : natChars n ≠ [] :=
  (natCharsF_spec (n + 1) n (by omega)).1

theorem natChars_digits (n : Nat) : ∀ c ∈ natChars n, c.isDigit = true :=
  (natCharsF_spec (n + 1) n (by omega)).2

/-! ## extract_questions lemmas -/

theorem extractLoop_ok_cons {b : Str} {v : JVal} (hb : loads (normalizeBlock b) = .ok v)
    (rest : List Str) :
    extractLoop (b :: rest) = ((v :: (extractLoop rest).1, (extractLoop rest).2)) := by
  rw [extractLoop, hb]

theorem extractLoop_err_cons {b : Str} {e : Str} (hb : loads (normalizeBlock b) = .error e)
    (rest : List Str) :
    extractLoop (b :: rest) =
      (((extractLoop rest).1, ⟨S "JSON Decode", e, b⟩ :: (extractLoop rest).2)) := by
  rw [extractLoop, hb]

/-- Decode of every rendered block in a list of safe records. -/
theorem extractLoop_renderBlocks (rs : List QRec) (h : ∀ r ∈ rs, r.Safe) :
    extractLoop (rs.map renderBlock) = (rs.map toJVal, []) := by
  induction rs with
  | nil => rfl
  | cons r rs2 ih =>
    have hr : r.Safe := h r (by simp)
    have hb : loads (normalizeBlock (renderBlock r)) = .ok (toJVal r) := by
      rw [normalizeBlock_renderBlock r hr, loads_renderBlockD r hr]
    rw [List.map_cons, extractLoop_ok_cons hb, ih (fun q hq => h q (by simp [hq]))]
    rfl

theorem renderInput_parts_ok (rs : List QRec) (h : ∀ r ∈ rs, r.Safe) :
    ∀ p ∈ (List.range rs.length).zip rs |>.map
      (fun p => (natChars (p.1 + 1), (['\n'] : Str), p.2, (['\n'] : Str))), PartOk p := by
  intro p hp
  obtain ⟨⟨i, r⟩, hmem, hq⟩ := List.mem_map.mp hp
  have hr : r ∈ rs := (List.of_mem_zip hmem).2
  subst hq
  refine ⟨natChars_ne_nil (i + 1), natChars_digits (i + 1), ?_, h r hr, ?_⟩ <;>
    · intro c hc
      rcases List.mem_singleton.mp hc
      rfl

theorem renderInput_blocks (rs : List QRec) :
    ((List.range rs.length).zip rs |>.map
      (fun p => (natChars (p.1 + 1), (['\n'] : Str), p.2, (['\n'] : Str)))).map
        (fun p => renderBlock p.2.2.1) = rs.map renderBlock := by
  rw [List.map_map]
  have : ∀ q : Nat × QRec,
      ((fun p => renderBlock p.2.2.1) ∘
        (fun p : Nat × QRec => (natChars (p.1 + 1), (['\n'] : Str), p.2, (['\n'] : Str)))) q =
      renderBlock q.2 := fun q => rfl
  rw [List.map_congr_left (fun q _ => this q)]
  rw [show (fun q : Nat × QRec => renderBlock q.2) = renderBlock ∘ Prod.snd from rfl,
    ← List.map_map]
  rw [List.map_snd_zip]
  simp

theorem scanBlocks_renderInput (rs : List QRec) (h : ∀ r ∈ rs, r.Safe) :
    scanBlocks (renderInput rs) = rs.map renderBlock := by
  rw [renderInput, scanBlocks_renderParts _ (renderInput_parts_ok rs h), renderInput_blocks]

theorem extract_questions_renderInput (rs : List QRec) (h : ∀ r ∈ rs, r.Safe) :
    extract_questions (renderInput rs) = (rs.map toJVal, []) := by
  rw [extract_questions, scanBlocks_renderInput rs h, extractLoop_renderBlocks rs h]

/-! ## Quiz progression lemmas -/

theorem generate_feedback_history (fb : Option Str) (s : SessionState) :
    (generate_feedback fb s).history = s.history := by cases fb <;> rfl

theorem generate_feedback_score (fb : Option Str) (s : SessionState) :
    (generate_feedback fb s).score = s.score := by cases fb <;> rfl

theorem generate_feedback_questions (fb : Option Str) (s : SessionState) :
    (generate_feedback fb s).questions = s.questions := by cases fb <;> rfl

/-- Characterization of a completed submission: one history entry is
appended whose correctness flag is the trimmed equality of the submitted
and stored answers, and the score grows exactly on a match. -/
theorem process_answer_char (q qt : JVal) (a ansv : Str) (fb : Option Str) (s : SessionState)
    (hq : jLookup q (S "Question") = some qt)
    (ha : jLookup q (S "Answer") = some (.jstr ansv)) :
    ∃ s2, process_answer q (some a) fb s = some s2 ∧
      s2.history = s.history ++ [⟨qt, some a, .jstr ansv, decide (pyStrip a = pyStrip ansv)⟩] ∧
      s2.score = s.score + (if pyStrip a = pyStrip ansv then 1 else 0) ∧
      s2.questions = s.questions := by
  simp only [process_answer, ha, hq]
  by_cases hc : pyStrip a = pyStrip ansv <;>
    simp only [hc, if_true, if_false, decide_eq_true_eq] <;>
    by_cases h2 : s.current_q < s.questions.length - 1 <;>
    simp only [h2, if_true, if_false] <;>
    exact ⟨_, rfl, by simp [generate_feedback_history],
      by simp [generate_feedback_score], by simp [generate_feedback_questions]⟩

theorem countCorrect_append_one (h : List AnswerRecord) (e : AnswerRecord) :
    countCorrect (h ++ [e]) = countCorrect h + (if e.is_correct then 1 else 0) := by
  cases he : e.is_correct <;> simp [countCorrect, List.filter_append, List.filter, he]

theorem countCorrect_le (h : List AnswerRecord) : countCorrect h ≤ h.length :=
  List.length_filter_le _ _

/-- Any completed submission appends exactly one history entry, adds its
correctness to the score, and leaves the question list unchanged. -/
theorem process_answer_some {q : JVal} {ua fb : Option Str} {s s2 : SessionState}
    (h : process_answer q ua fb s = some s2) :
    ∃ en : AnswerRecord, s2.history = s.history ++ [en] ∧
      s2.score = s.score + (if en.is_correct then 1 else 0) ∧
      s2.questions = s.questions := by
  rw [process_answer.eq_def] at h
  split at h
  · exact absurd h (by simp)
  · next a =>
    split at h
    case _ ansv _ =>
      split at h
      case _ qt _ =>
        refine ⟨⟨qt, some a, .jstr ansv, decide (pyStrip a = pyStrip ansv)⟩, ?_⟩
        by_cases hc : pyStrip a = pyStrip ansv
        · simp only [hc, if_true, decide_True, eq_self_iff_true] at h ⊢
          split at h
          · rw [Option.some_inj] at h
            subst h
            exact ⟨by simp, by simp, by simp⟩
          · rw [Option.some_inj] at h
            subst h
            exact ⟨by simp [generate_feedback_history], by simp [generate_feedback_score],
              by simp [generate_feedback_questions]⟩
        · simp only [hc, if_false, decide_False, eq_self_iff_true] at h ⊢
          split at h
          · rw [Option.some_inj] at h
            subst h
            exact ⟨by simp, by simp, by simp⟩
          · rw [Option.some_inj] at h
            subst h
            exact ⟨by simp [generate_feedback_history], by simp [generate_feedback_score],
              by simp [generate_feedback_questions]⟩
      case _ => exact absurd h (by simp)
    case _ => exact absurd h (by simp)

/-- One UI submission preserves the score invariant, grows the history by at
most one entry, and leaves the question list unchanged. -/
theorem submit_step (ua fb : Option Str) (s : SessionState)
    (hinv : s.score = countCorrect s.history) :
    (submit ua fb s).score = countCorrect (submit ua fb s).history ∧
    (submit ua fb s).history.length ≤ s.history.length + 1 ∧
    (submit ua fb s).questions = s.questions := by
  rw [submit.eq_def]
  split
  · exact ⟨hinv, by omega, rfl⟩
  · next q hq =>
    rcases hpa : process_answer q ua fb s with _ | s2
    · exact ⟨hinv, Nat.le_succ _, rfl⟩
    · obtain ⟨en, he1, he2, he3⟩ := process_answer_some hpa
      refine ⟨?_, ?_, he3⟩
      · show s2.score = countCorrect s2.history
        rw [he1, he2, countCorrect_append_one, hinv]
      · show s2.history.length ≤ s.history.length + 1
        rw [he1]
        simp

theorem submitMany_invariant (subs : List (Option Str × Option Str)) :
    ∀ s : SessionState, s.score = countCorrect s.history →
    (submitMany subs s).score = countCorrect (submitMany subs s).history ∧
    (submitMany subs s).history.length ≤ s.history.length + subs.length ∧
    (submitMany subs s).questions = s.questions := by
  induction subs with
  | nil => intro s hinv; exact ⟨hinv, by simp [submitMany], by simp [submitMany]⟩
  | cons p rest ih =>
    intro s hinv
    obtain ⟨ua, fb⟩ := p
    obtain ⟨h1, h2, h3⟩ := submit_step ua fb s hinv
    obtain ⟨g1, g2, g3⟩ := ih (submit ua fb s) h1
    refine ⟨g1, ?_, by rw [show submitMany ((ua, fb) :: rest) s =
      submitMany rest (submit ua fb s) from rfl, g3, h3]⟩
    rw [show submitMany ((ua, fb) :: rest) s = submitMany rest (submit ua fb s) from rfl]
    simp only [List.length_cons]
    omega

/-! ## Serializer lemmas -/

theorem escapeJsonChar_ok {c : Char} (h : okChar c = true) : escapeJsonChar c = [c] := by
  obtain ⟨_, h2, h3, _, _, _, h7, h8⟩ := okChar_facts h
  have hn : c ≠ '\n' := fun he => by rw [he] at h7; exact absurd h7 (by decide)
  have ht : c ≠ '\t' := fun he => by rw [he] at h7; exact absurd h7 (by decide)
  have hr : c ≠ '\r' := fun he => by rw [he] at h7; exact absurd h7 (by decide)
  have hb : c ≠ Char.ofNat 8 := fun he => by rw [he] at h7; exact absurd h7 (by decide)
  have hf : c ≠ Char.ofNat 12 := fun he => by rw [he] at h7; exact absurd h7 (by decide)
  rw [escapeJsonChar, if_neg h2, if_neg h3, if_neg hn, if_neg ht, if_neg hr, if_neg hb,
    if_neg hf, if_neg (by omega), if_pos (by omega)]

theorem flatten_escape_safe {s : Str} (h : SafeStr s) : (s.map escapeJsonChar).flatten = s := by
  induction s with
  | nil => rfl
  | cons c cs ih =>
    rw [List.map_cons, List.flatten_cons, escapeJsonChar_ok h.head, ih h.restSafe]
    rfl

theorem dumpStr_safe {s : Str} (h : SafeStr s) : dumpStr s = q2 s := by
  rw [dumpStr, q2, flatten_escape_safe h]

/-- The serialization of a canonical safe record is exactly the normalized
block text. -/
theorem dumps_toJVal (r : QRec) (h : r.Safe) : dumps (toJVal r) = renderBlockD r := by
  obtain ⟨h1, h2, h3, h4, h5, h6⟩ := h
  rw [toJVal, dumps]
  rw [show dumpMembers [(S "Question", JVal.jstr r.q),
      (S "Options", JVal.jobj [(S "OptionA", JVal.jstr r.oa), (S "OptionB", JVal.jstr r.ob),
        (S "OptionC", JVal.jstr r.oc), (S "OptionD", JVal.jstr r.od)]),
      (S "Answer", JVal.jstr r.ans)] =
    dumpStr (S "Question") ++ ':' :: ' ' :: dumps (JVal.jstr r.q) ++ ',' :: ' ' ::
      (dumpStr (S "Options") ++ ':' :: ' ' :: dumps (JVal.jobj [(S "OptionA", JVal.jstr r.oa),
        (S "OptionB", JVal.jstr r.ob), (S "OptionC", JVal.jstr r.oc),
        (S "OptionD", JVal.jstr r.od)]) ++ ',' :: ' ' ::
        (dumpStr (S "Answer") ++ ':' :: ' ' :: dumps (JVal.jstr r.ans))) from rfl]
  rw [show dumps (JVal.jobj [(S "OptionA", JVal.jstr r.oa), (S "OptionB", JVal.jstr r.ob),
      (S "OptionC", JVal.jstr r.oc), (S "OptionD", JVal.jstr r.od)]) =
    lbc :: (dumpStr (S "OptionA") ++ ':' :: ' ' :: dumps (JVal.jstr r.oa) ++ ',' :: ' ' ::
      (dumpStr (S "OptionB") ++ ':' :: ' ' :: dumps (JVal.jstr r.ob) ++ ',' :: ' ' ::
        (dumpStr (S "OptionC") ++ ':' :: ' ' :: dumps (JVal.jstr r.oc) ++ ',' :: ' ' ::
          (dumpStr (S "OptionD") ++ ':' :: ' ' :: dumps (JVal.jstr r.od))))) ++ [rbc] from rfl]
  simp only [show ∀ v : Str, dumps (JVal.jstr v) = dumpStr v from fun v => rfl]
  rw [dumpStr_safe h1, dumpStr_safe h2, dumpStr_safe h3, dumpStr_safe h4, dumpStr_safe h5,
    dumpStr_safe h6, dumpStr_safe (show SafeStr (S "Question") from by decide),
    dumpStr_safe (show SafeStr (S "Options") from by decide),
    dumpStr_safe (show SafeStr (S "Answer") from by decide),
    dumpStr_safe (show SafeStr (S "OptionA") from by decide),
    dumpStr_safe (show SafeStr (S "OptionB") from by decide),
    dumpStr_safe (show SafeStr (S "OptionC") from by decide),
    dumpStr_safe (show SafeStr (S "OptionD") from by decide)]
  simp [renderBlockD, renderMidD, renderOptionsD, kvD]

theorem sq_not_mem_q2 {s : Str} (h : SafeStr s) : sqc ∉ q2 s := by
  intro hm
  rw [q2] at hm
  rcases List.mem_cons.mp hm with h1 | h1
  · exact absurd h1 (by decide)
  · rcases List.mem_append.mp h1 with h2 | h2
    · exact absurd rfl (okChar_facts (h sqc h2)).1
    · exact absurd (List.mem_singleton.mp h2) (by decide)

theorem sq_not_mem_kvD {k v : Str} (hk : SafeStr k) (hv : SafeStr v) : sqc ∉ kvD k v := by
  intro hm
  rw [kvD] at hm
  rcases List.mem_append.mp hm with h1 | h1
  · exact sq_not_mem_q2 hk h1
  · rcases List.mem_cons.mp h1 with h2 | h2
    · exact absurd h2 (by decide)
    · rcases List.mem_cons.mp h2 with h3 | h3
      · exact absurd h3 (by decide)
      · exact sq_not_mem_q2 hv h3

theorem replQuote_renderBlockD (r : QRec) (h : r.Safe) :
    replQuote (renderBlockD r) = renderBlockD r := by
  obtain ⟨h1, h2, h3, h4, h5, h6⟩ := h
  apply replQuote_of_no_sq
  intro c hc hcsq
  subst hcsq
  revert hc
  simp only [renderBlockD, renderMidD, renderOptionsD, List.mem_cons, List.mem_append]
  simp [sq_not_mem_kvD (show SafeStr (S "Question") from by decide) h1,
    sq_not_mem_kvD (show SafeStr (S "OptionA") from by decide) h2,
    sq_not_mem_kvD (show SafeStr (S "OptionB") from by decide) h3,
    sq_not_mem_kvD (show SafeStr (S "OptionC") from by decide) h4,
    sq_not_mem_kvD (show SafeStr (S "OptionD") from by decide) h5,
    sq_not_mem_kvD (show SafeStr (S "Answer") from by decide) h6,
    sq_not_mem_q2 (show SafeStr (S "Options") from by decide),
    show sqc ≠ ',' from by decide, show sqc ≠ ' ' from by decide,
    show sqc ≠ ':' from by decide, show sqc ≠ lbc from by decide,
    show sqc ≠ rbc from by decide]

/-- Round trip for a safe canonical record: serializing the decoded record
and renormalizing decodes back to the same record with no diagnostic. -/
theorem roundtrip_safe (r : QRec) (h : r.Safe) :
    loads (normalizeBlock (dumps (toJVal r))) = .ok (toJVal r) := by
  rw [dumps_toJVal r h, normalizeBlock, replQuote_renderBlockD r h,
    quoteKeys_renderBlockD r h, loads_renderBlockD r h]

theorem extractLoop_append (xs ys : List Str) :
    extractLoop (xs ++ ys) =
      ((extractLoop xs).1 ++ (extractLoop ys).1, (extractLoop xs).2 ++ (extractLoop ys).2) := by
  induction xs with
  | nil => simp [extractLoop]
  | cons b rest ih =>
    rw [List.cons_append, extractLoop, ih, extractLoop]
    rcases loads (normalizeBlock b) with e | v <;> simp

theorem extractLoop_fst_decodeOks (bs : List Str) : (extractLoop bs).1 = decodeOks bs := by
  induction bs with
  | nil => rfl
  | cons b rest ih =>
    rw [extractLoop, decodeOks, List.filterMap_cons]
    rcases hb : loads (normalizeBlock b) with e | v <;> simp [hb, ih, decodeOks] <;> rfl

theorem extractLoop_all_ok (bs : List Str)
    (h : ∀ b ∈ bs, (loads (normalizeBlock b)).isOk = true) :
    extractLoop bs = (decodeOks bs, []) := by
  induction bs with
  | nil => rfl
  | cons b rest ih =>
    have hb := h b (by simp)
    rcases hb2 : loads (normalizeBlock b) with e | v
    · rw [hb2] at hb; exact absurd hb (by simp [Except.isOk, Except.toBool])
    · have hstep : decodeOks (b :: rest) = v :: decodeOks rest := by
        rw [decodeOks, List.filterMap_cons, hb2]
        rfl
      rw [extractLoop, hb2, ih (fun x hx => h x (by simp [hx])), hstep]

theorem decodeOks_len (bs : List Str)
    (h : ∀ b ∈ bs, (loads (normalizeBlock b)).isOk = true) :
    (decodeOks bs).length = bs.length := by
  induction bs with
  | nil => rfl
  | cons b rest ih =>
    have hb := h b (by simp)
    rcases hb2 : loads (normalizeBlock b) with e | v
    · rw [hb2] at hb; exact absurd hb (by simp [Except.isOk, Except.toBool])
    · have hstep : decodeOks (b :: rest) = v :: decodeOks rest := by
        rw [decodeOks, List.filterMap_cons, hb2]
        rfl
      rw [hstep, List.length_cons, List.length_cons,
        ih (fun x hx => h x (by simp [hx]))]

/-! # Claim theorems -/

set_option maxRecDepth 100000

/-- C1: for every input consisting of N well-formed, correctly delimited
question blocks (marker, then a brace-delimited single-quoted object with
safe texts), extract_questions returns exactly N records, in source order,
each with exactly four populated options, and records no diagnostic. -/
theorem c1_well_formed_blocks_all_extracted (rs : List QRec) (h : ∀ r ∈ rs, r.Safe) :
    extract_questions (renderInput rs) = (rs.map toJVal, []) ∧
    (extract_questions (renderInput rs)).1.length = rs.length ∧
    ∀ j ∈ (extract_questions (renderInput rs)).1, optionsCount j = some 4 := by
  have he := extract_questions_renderInput rs h
  refine ⟨he, by rw [he]; simp, ?_⟩
  rw [he]
  intro j hj
  obtain ⟨r, _, hr⟩ := List.mem_map.mp hj
  rw [← hr]
  rfl

/-- Witness for C1 at a concrete two-question input. -/
theorem c1_witness :
    extract_questions (renderInput [⟨S "What is 2+2?", S "3", S "4", S "5", S "6", S "4"⟩,
        ⟨S "Which planet is red?", S "Mars", S "Venus", S "Pluto", S "Saturn", S "Mars"⟩]) =
      ([toJVal ⟨S "What is 2+2?", S "3", S "4", S "5", S "6", S "4"⟩,
        toJVal ⟨S "Which planet is red?", S "Mars", S "Venus", S "Pluto", S "Saturn", S "Mars"⟩], []) ∧
    (extract_questions (renderInput [⟨S "What is 2+2?", S "3", S "4", S "5", S "6", S "4"⟩,
        ⟨S "Which planet is red?", S "Mars", S "Venus", S "Pluto", S "Saturn", S "Mars"⟩])).1.length = 2 ∧
    ∀ j ∈ (extract_questions (renderInput [⟨S "What is 2+2?", S "3", S "4", S "5", S "6", S "4"⟩,
        ⟨S "Which planet is red?", S "Mars", S "Venus", S "Pluto", S "Saturn", S "Mars"⟩])).1,
      optionsCount j = some 4 :=
  c1_well_formed_blocks_all_extracted
    [⟨S "What is 2+2?", S "3", S "4", S "5", S "6", S "4"⟩,
     ⟨S "Which planet is red?", S "Mars", S "Venus", S "Pluto", S "Saturn", S "Mars"⟩]
    (by decide)

/-- C3 counterexample: a block that decodes as JSON but lacks the Question
and Options fields is returned as a record anyway; the code performs no
field validation after json.loads, contrary to the claim that such a block
is never returned. -/
theorem c3_counterexample :
    extract_questions (S "**Question1**\n" ++
        (lbc :: ((q1 (S "Answer") ++ ':' :: ' ' :: q1 (S "x")) ++ [rbc]))) =
      ([.jobj [(S "Answer", .jstr (S "x"))]], []) ∧
    jLookup (.jobj [(S "Answer", .jstr (S "x"))]) (S "Question") = none ∧
    jLookup (.jobj [(S "Answer", .jstr (S "x"))]) (S "Options") = none ∧
    optionsCount (.jobj [(S "Answer", .jstr (S "x"))]) ≠ some 4 :=
  ⟨rfl, rfl, rfl, by decide⟩

/-- C3 amended: the records returned are exactly the candidate blocks whose
normalized text decodes as JSON, in order, with no validation of required
fields or of the number of options. -/
theorem c3_amended_no_field_validation (response : Str) :
    (extract_questions response).1 = decodeOks (scanBlocks response) :=
  extractLoop_fst_decodeOks (scanBlocks response)

/-- C4: two well-formed blocks placed back to back, with no separator text
between the closing brace of the first and the marker of the second, are
both segmented and decoded. -/
theorem c4_back_to_back_blocks (r1 r2 : QRec) (h1 : r1.Safe) (h2 : r2.Safe) :
    extract_questions (renderParts
        [(natChars 1, ['\n'], r1, []), (natChars 2, ['\n'], r2, ['\n'])]) =
      ([toJVal r1, toJVal r2], []) := by
  have hok : ∀ p ∈ [(natChars 1, (['\n'] : Str), r1, ([] : Str)),
      (natChars 2, (['\n'] : Str), r2, (['\n'] : Str))], PartOk p := by
    intro p hp
    rcases List.mem_cons.mp hp with h | h
    · subst h
      refine ⟨natChars_ne_nil 1, natChars_digits 1, ?_, h1, ?_⟩
      · intro c hc; rcases List.mem_singleton.mp hc; rfl
      · intro c hc; exact absurd hc (List.not_mem_nil c)
    · rcases List.mem_singleton.mp h with h
      subst h
      refine ⟨natChars_ne_nil 2, natChars_digits 2, ?_, h2, ?_⟩
      · intro c hc; rcases List.mem_singleton.mp hc; rfl
      · intro c hc; rcases List.mem_singleton.mp hc; rfl
  rw [extract_questions, scanBlocks_renderParts _ hok,
    show ([(natChars 1, (['\n'] : Str), r1, ([] : Str)),
        (natChars 2, (['\n'] : Str), r2, (['\n'] : Str))].map
      (fun p => renderBlock p.2.2.1)) = [r1, r2].map renderBlock from rfl,
    extractLoop_renderBlocks [r1, r2] ?hsafe]
  case hsafe =>
    intro r hr
    rcases List.mem_cons.mp hr with h | h
    · subst h; exact h1
    · rcases List.mem_singleton.mp h with h; subst h; exact h2
  rfl

/-- Witness for C4 at concrete records. -/
theorem c4_witness :
    extract_questions (renderParts
        [(natChars 1, ['\n'], ⟨S "What is 2+2?", S "3", S "4", S "5", S "6", S "4"⟩, []),
         (natChars 2, ['\n'], ⟨S "Which planet is red?", S "Mars", S "Venus", S "Pluto",
            S "Saturn", S "Mars"⟩, ['\n'])]) =
      ([toJVal ⟨S "What is 2+2?", S "3", S "4", S "5", S "6", S "4"⟩,
        toJVal ⟨S "Which planet is red?", S "Mars", S "Venus", S "Pluto", S "Saturn", S "Mars"⟩],
       []) :=
  c4_back_to_back_blocks ⟨S "What is 2+2?", S "3", S "4", S "5", S "6", S "4"⟩
    ⟨S "Which planet is red?", S "Mars", S "Venus", S "Pluto", S "Saturn", S "Mars"⟩
    (by decide) (by decide)

/-- C5 counterexample: a record whose question text contains an apostrophe
written as the escape backslash-u0027 decodes successfully, but serializing
it and passing the text back through normalization corrupts the quoting
(the apostrophe becomes a double quote), so the decode fails and a
diagnostic would be recorded, contrary to the idempotence claim. -/
theorem c5_counterexample :
    extract_questions (S "**Question1**\n" ++
        ((lbc :: ((q1 (S "Question") ++ ':' :: ' ' ::
          (sqc :: (S "it" ++ bsc :: (S "u0027s" ++ [sqc]))) ++ ',' :: ' ' ::
          (q1 (S "Answer") ++ ':' :: ' ' :: q1 (S "a"))) ++ [rbc])) ++ S "\n")) =
      ([.jobj [(S "Question", .jstr (S "it" ++ sqc :: S "s")),
               (S "Answer", .jstr (S "a"))]], []) ∧
    (loads (normalizeBlock (dumps (.jobj [(S "Question", .jstr (S "it" ++ sqc :: S "s")),
        (S "Answer", .jstr (S "a"))])))).isOk = false :=
  ⟨rfl, rfl⟩

/-- C5 amended: for every record of the canonical QuestionRecord shape whose
texts contain no apostrophe and no other regex-active character, the records
the Parser produces on well-formed input round trip: serializing the decoded
record and renormalizing decodes back to the same record, with no
diagnostic. -/
theorem c5_amended_roundtrip (r : QRec) (h : r.Safe) :
    loads (normalizeBlock (dumps (toJVal r))) = .ok (toJVal r) ∧
    extract_questions (renderInput [r]) = ([toJVal r], []) :=
  ⟨roundtrip_safe r h,
   extract_questions_renderInput [r] (by
     intro x hx
     rcases List.mem_singleton.mp hx with hx
     rw [hx]
     exact h)⟩

/-- Witness for C5 at a concrete record. -/
theorem c5_witness :
    loads (normalizeBlock (dumps (toJVal ⟨S "What is 2+2?", S "3", S "4", S "5", S "6", S "4"⟩))) =
      .ok (toJVal ⟨S "What is 2+2?", S "3", S "4", S "5", S "6", S "4"⟩) ∧
    extract_questions (renderInput [⟨S "What is 2+2?", S "3", S "4", S "5", S "6", S "4"⟩]) =
      ([toJVal ⟨S "What is 2+2?", S "3", S "4", S "5", S "6", S "4"⟩], []) :=
  c5_amended_roundtrip ⟨S "What is 2+2?", S "3", S "4", S "5", S "6", S "4"⟩ (by decide)

/-- C2: when exactly one candidate block fails structural decode, the Parser
returns one record fewer than the number of candidates, keeping all other
decoded records in order, and records exactly one diagnostic whose stored
block text is the raw pre-normalization candidate and whose message is the
decoder error; the model of the Parser is a total function, so no exception
escapes it. -/
theorem c2_single_failing_block (input : Str) (pre post : List Str) (b e : Str)
    (hseg : scanBlocks input = pre ++ b :: post)
    (hok : ∀ x ∈ pre ++ post, (loads (normalizeBlock x)).isOk = true)
    (hbad : loads (normalizeBlock b) = .error e) :
    (extract_questions input).1 = decodeOks pre ++ decodeOks post ∧
    (extract_questions input).1.length + 1 = (scanBlocks input).length ∧
    (extract_questions input).2 = [⟨S "JSON Decode", e, b⟩] := by
  have hpre : ∀ x ∈ pre, (loads (normalizeBlock x)).isOk = true :=
    fun x hx => hok x (by simp [hx])
  have hpost : ∀ x ∈ post, (loads (normalizeBlock x)).isOk = true :=
    fun x hx => hok x (by simp [hx])
  have hext : extract_questions input =
      (decodeOks pre ++ decodeOks post, [⟨S "JSON Decode", e, b⟩]) := by
    rw [extract_questions, hseg, extractLoop_append pre (b :: post),
      extractLoop_err_cons hbad post, extractLoop_all_ok pre hpre,
      extractLoop_all_ok post hpost]
    rfl
  refine ⟨by rw [hext], ?_, by rw [hext]⟩
  rw [hext, hseg]
  simp only [List.length_append, List.length_cons]
  rw [decodeOks_len pre hpre, decodeOks_len post hpost]
  omega

/-- Witness for C2 at a concrete three-block input with a failing middle
block. -/
theorem c2_witness :
    (extract_questions (S "**Question1**\n" ++
        (renderBlock ⟨S "What is 2+2?", S "3", S "4", S "5", S "6", S "4"⟩ ++
          (S "\n**Question2**\n" ++ ((lbc :: (S "bad," ++ [rbc])) ++
            (S "\n**Question3**\n" ++ (renderBlock ⟨S "Which planet is red?", S "Mars",
              S "Venus", S "Pluto", S "Saturn", S "Mars"⟩ ++ S "\n"))))))).1 =
      decodeOks [renderBlock ⟨S "What is 2+2?", S "3", S "4", S "5", S "6", S "4"⟩] ++
        decodeOks [renderBlock ⟨S "Which planet is red?", S "Mars", S "Venus", S "Pluto",
          S "Saturn", S "Mars"⟩] ∧
    (extract_questions (S "**Question1**\n" ++
        (renderBlock ⟨S "What is 2+2?", S "3", S "4", S "5", S "6", S "4"⟩ ++
          (S "\n**Question2**\n" ++ ((lbc :: (S "bad," ++ [rbc])) ++
            (S "\n**Question3**\n" ++ (renderBlock ⟨S "Which planet is red?", S "Mars",
              S "Venus", S "Pluto", S "Saturn", S "Mars"⟩ ++ S "\n"))))))).1.length + 1 =
      (scanBlocks (S "**Question1**\n" ++
        (renderBlock ⟨S "What is 2+2?", S "3", S "4", S "5", S "6", S "4"⟩ ++
          (S "\n**Question2**\n" ++ ((lbc :: (S "bad," ++ [rbc])) ++
            (S "\n**Question3**\n" ++ (renderBlock ⟨S "Which planet is red?", S "Mars",
              S "Venus", S "Pluto", S "Saturn", S "Mars"⟩ ++ S "\n"))))))).length ∧
    (extract_questions (S "**Question1**\n" ++
        (renderBlock ⟨S "What is 2+2?", S "3", S "4", S "5", S "6", S "4"⟩ ++
          (S "\n**Question2**\n" ++ ((lbc :: (S "bad," ++ [rbc])) ++
            (S "\n**Question3**\n" ++ (renderBlock ⟨S "Which planet is red?", S "Mars",
              S "Venus", S "Pluto", S "Saturn", S "Mars"⟩ ++ S "\n"))))))).2 =
      [⟨S "JSON Decode", S "Expecting property name enclosed in double quotes",
        lbc :: (S "bad," ++ [rbc])⟩] :=
  c2_single_failing_block _
    [renderBlock ⟨S "What is 2+2?", S "3", S "4", S "5", S "6", S "4"⟩]
    [renderBlock ⟨S "Which planet is red?", S "Mars", S "Venus", S "Pluto", S "Saturn", S "Mars"⟩]
    (lbc :: (S "bad," ++ [rbc]))
    (S "Expecting property name enclosed in double quotes")
    (by rfl) (by decide) (by rfl)

/-- C6: the answer comparison of process_answer is exact string equality
after trimming whitespace from both sides, case-sensitive, with no semantic
matching: the recorded correctness flag and the score increment are exactly
the trimmed equality, a surrounding-whitespace answer matches, and a
spelled-out or differently-cased answer does not. -/
theorem c6_trimmed_exact_equality :
    (∀ (q qt : JVal) (a ansv : Str) (fb : Option Str) (s : SessionState),
      jLookup q (S "Question") = some qt →
      jLookup q (S "Answer") = some (.jstr ansv) →
      ∃ s2, process_answer q (some a) fb s = some s2 ∧
        s2.history = s.history ++ [⟨qt, some a, .jstr ansv,
          decide (pyStrip a = pyStrip ansv)⟩] ∧
        s2.score = s.score + (if pyStrip a = pyStrip ansv then 1 else 0)) ∧
    pyStrip (S " 4 ") = pyStrip (S "4") ∧
    pyStrip (S "four") ≠ pyStrip (S "4") ∧
    pyStrip (S "Four") ≠ pyStrip (S "four") := by
  refine ⟨?_, rfl, by decide, by decide⟩
  intro q qt a ansv fb s hq ha
  obtain ⟨s2, h1, h2, h3, _⟩ := process_answer_char q qt a ansv fb s hq ha
  exact ⟨s2, h1, h2, h3⟩

/-- Witness for C6: a surrounding-whitespace submission scores, a spelled
out one does not. -/
theorem c6_witness :
    (process_answer (toJVal ⟨S "What is 2+2?", S "3", S "4", S "5", S "6", S "4"⟩)
      (some (S " 4 ")) none initState).map (fun s2 => s2.score) = some 1 ∧
    (process_answer (toJVal ⟨S "What is 2+2?", S "3", S "4", S "5", S "6", S "4"⟩)
      (some (S "four")) none initState).map (fun s2 => s2.score) = some 0 := by
  obtain ⟨s2, h1, _, h3⟩ := c6_trimmed_exact_equality.1
    (toJVal ⟨S "What is 2+2?", S "3", S "4", S "5", S "6", S "4"⟩)
    (.jstr (S "What is 2+2?")) (S " 4 ") (S "4") none initState rfl rfl
  obtain ⟨t2, g1, _, g3⟩ := c6_trimmed_exact_equality.1
    (toJVal ⟨S "What is 2+2?", S "3", S "4", S "5", S "6", S "4"⟩)
    (.jstr (S "What is 2+2?")) (S "four") (S "4") none initState rfl rfl
  constructor
  · rw [h1]
    show some s2.score = some 1
    rw [h3]
    rfl
  · rw [g1]
    show some t2.score = some 0
    rw [g3]
    rfl

/-- C8: submitting an answer when no option is selected passes None to
process_answer, whose first statement calls .strip() on it and raises; the
model returns none (an exception) for every question, feedback oracle and
state, contradicting the claim that no interaction is fatal and that
process_answer never raises. -/
theorem c8_none_answer_raises :
    ∀ (q : JVal) (fb : Option Str) (s : SessionState),
      process_answer q none fb s = none :=
  fun _ _ _ => rfl

/-- C9 counterexample: the generate-new-quiz update block also resets the
attempt counter, which the claim lists among the fields left unchanged. -/
theorem c9_counterexample :
    (generate_quiz_update [] { initState with attempt_count := 5 }).attempt_count = 0 ∧
    ({ initState with attempt_count := 5 } : SessionState).attempt_count = 5 :=
  ⟨rfl, rfl⟩

/-- C9 amended: the retake-quiz handler resets exactly the question list,
current index, score, history and feedback, leaving every other field
including the attempt counter unchanged; the generate-new-quiz update
resets those five fields and additionally the attempt counter, leaving the
credential, user configuration, chat transcript, last raw response and
parse diagnostics unchanged. -/
theorem c9_amended_frame (s : SessionState) (qs : List JVal) :
    (retake_quiz s).questions = [] ∧ (retake_quiz s).current_q = 0 ∧
    (retake_quiz s).score = 0 ∧ (retake_quiz s).history = [] ∧
    (retake_quiz s).feedback = [] ∧
    (retake_quiz s).api_key = s.api_key ∧
    (retake_quiz s).user_details = s.user_details ∧
    (retake_quiz s).difficulty = s.difficulty ∧
    (retake_quiz s).chat_history = s.chat_history ∧
    (retake_quiz s).raw_response = s.raw_response ∧
    (retake_quiz s).parsing_errors = s.parsing_errors ∧
    (retake_quiz s).attempt_count = s.attempt_count ∧
    (generate_quiz_update qs s).questions = qs ∧
    (generate_quiz_update qs s).current_q = 0 ∧
    (generate_quiz_update qs s).score = 0 ∧
    (generate_quiz_update qs s).history = [] ∧
    (generate_quiz_update qs s).feedback = [] ∧
    (generate_quiz_update qs s).attempt_count = 0 ∧
    (generate_quiz_update qs s).api_key = s.api_key ∧
    (generate_quiz_update qs s).user_details = s.user_details ∧
    (generate_quiz_update qs s).difficulty = s.difficulty ∧
    (generate_quiz_update qs s).chat_history = s.chat_history ∧
    (generate_quiz_update qs s).raw_response = s.raw_response ∧
    (generate_quiz_update qs s).parsing_errors = s.parsing_errors :=
  ⟨rfl, rfl, rfl, rfl, rfl, rfl, rfl, rfl, rfl, rfl, rfl, rfl, rfl, rfl, rfl, rfl, rfl, rfl,
   rfl, rfl, rfl, rfl, rfl, rfl⟩

/-- C7: the tenacity decorator would retry only on an exception, but the
catch-all except inside generate_questions converts a transport error into
a returned None, so only one attempt is made even though a second call
would have succeeded; the attempt counter is incremented once, no raw
response is stored, and no questions are produced.  A successful call whose
reply contains no marker yields an empty list after one attempt, reported
rather than retried. -/
theorem c7_transport_error_not_retried :
    (generate_questions [.err (S "connection error"),
        .ok (renderInput [⟨S "What is 2+2?", S "3", S "4", S "5", S "6", S "4"⟩])]
      initState).2.2 = 1 ∧
    (generate_questions [.err (S "connection error"),
        .ok (renderInput [⟨S "What is 2+2?", S "3", S "4", S "5", S "6", S "4"⟩])]
      initState).2.1 = .ok none ∧
    (generate_questions [.err (S "connection error"),
        .ok (renderInput [⟨S "What is 2+2?", S "3", S "4", S "5", S "6", S "4"⟩])]
      initState).1.attempt_count = 1 ∧
    (generate_questions [.err (S "connection error"),
        .ok (renderInput [⟨S "What is 2+2?", S "3", S "4", S "5", S "6", S "4"⟩])]
      initState).1.raw_response = none ∧
    (extract_questions
      (renderInput [⟨S "What is 2+2?", S "3", S "4", S "5", S "6", S "4"⟩])).1.length = 1 ∧
    (generate_questions [.ok (S "no marker in this reply")] initState).2 = (.ok (some []), 1) :=
  ⟨rfl, rfl, rfl, rfl, rfl, rfl⟩

/-- C10 counterexample: submitting twice on a one-question quiz leaves two
history entries, more than the number of questions, so the claimed bound of
history length by question count fails for arbitrary submission
sequences. -/
theorem c10_counterexample :
    (submitMany [(some (S "4"), none), (some (S "4"), none)]
      (generate_quiz_update
        [toJVal ⟨S "What is 2+2?", S "3", S "4", S "5", S "6", S "4"⟩]
        initState)).history.length = 2 ∧
    (submitMany [(some (S "4"), none), (some (S "4"), none)]
      (generate_quiz_update
        [toJVal ⟨S "What is 2+2?", S "3", S "4", S "5", S "6", S "4"⟩]
        initState)).questions.length = 1 :=
  ⟨rfl, rfl⟩

/-- C10 amended: after any sequence of submissions on a freshly generated
quiz, the score equals the number of history entries marked correct, each
completed submission appends exactly one entry so the history is bounded by
the number of submissions, and when at most one submission is made per
question the history is bounded by the question count. -/
theorem c10_amended_score_invariant (subs : List (Option Str × Option Str))
    (qs : List JVal) (base : SessionState) :
    (submitMany subs (generate_quiz_update qs base)).score =
      countCorrect (submitMany subs (generate_quiz_update qs base)).history ∧
    (submitMany subs (generate_quiz_update qs base)).score ≤
      (submitMany subs (generate_quiz_update qs base)).history.length ∧
    (submitMany subs (generate_quiz_update qs base)).history.length ≤ subs.length ∧
    (subs.length ≤ qs.length →
      (submitMany subs (generate_quiz_update qs base)).history.length ≤ qs.length) := by
  obtain ⟨g1, g2, _⟩ := submitMany_invariant subs (generate_quiz_update qs base) rfl
  have hlen : (submitMany subs (generate_quiz_update qs base)).history.length ≤ subs.length := by
    have h0 : (generate_quiz_update qs base).history = [] := rfl
    rw [h0] at g2
    simpa using g2
  refine ⟨g1, ?_, hlen, fun hle => le_trans hlen hle⟩
  rw [g1]
  exact countCorrect_le _

/-- Witness for C10 at a concrete two-question quiz with two submissions. -/
theorem c10_witness :
    (submitMany [(some (S " 4 "), none), (some (S "Venus"), none)]
      (generate_quiz_update
        [toJVal ⟨S "What is 2+2?", S "3", S "4", S "5", S "6", S "4"⟩,
         toJVal ⟨S "Which planet is red?", S "Mars", S "Venus", S "Pluto", S "Saturn", S "Mars"⟩]
        initState)).score =
      countCorrect (submitMany [(some (S " 4 "), none), (some (S "Venus"), none)]
        (generate_quiz_update
          [toJVal ⟨S "What is 2+2?", S "3", S "4", S "5", S "6", S "4"⟩,
           toJVal ⟨S "Which planet is red?", S "Mars", S "Venus", S "Pluto", S "Saturn",
             S "Mars"⟩]
          initState)).history ∧
    (submitMany [(some (S " 4 "), none), (some (S "Venus"), none)]
      (generate_quiz_update
        [toJVal ⟨S "What is 2+2?", S "3", S "4", S "5", S "6", S "4"⟩,
         toJVal ⟨S "Which planet is red?", S "Mars", S "Venus", S "Pluto", S "Saturn", S "Mars"⟩]
        initState)).score ≤
      (submitMany [(some (S " 4 "), none), (some (S "Venus"), none)]
        (generate_quiz_update
          [toJVal ⟨S "What is 2+2?", S "3", S "4", S "5", S "6", S "4"⟩,
           toJVal ⟨S "Which planet is red?", S "Mars", S "Venus", S "Pluto", S "Saturn",
             S "Mars"⟩]
          initState)).history.length ∧
    (submitMany [(some (S " 4 "), none), (some (S "Venus"), none)]
      (generate_quiz_update
        [toJVal ⟨S "What is 2+2?", S "3", S "4", S "5", S "6", S "4"⟩,
         toJVal ⟨S "Which planet is red?", S "Mars", S "Venus", S "Pluto", S "Saturn", S "Mars"⟩]
        initState)).history.length ≤ 2 ∧
    (2 ≤ 2 →
      (submitMany [(some (S " 4 "), none), (some (S "Venus"), none)]
        (generate_quiz_update
          [toJVal ⟨S "What is 2+2?", S "3", S "4", S "5", S "6", S "4"⟩,
           toJVal ⟨S "Which planet is red?", S "Mars", S "Venus", S "Pluto", S "Saturn",
             S "Mars"⟩]
          initState)).history.length ≤ 2) :=
  c10_amended_score_invariant [(some (S " 4 "), none), (some (S "Venus"), none)]
    [toJVal ⟨S "What is 2+2?", S "3", S "4", S "5", S "6", S "4"⟩,
     toJVal ⟨S "Which planet is red?", S "Mars", S "Venus", S "Pluto", S "Saturn", S "Mars"⟩]
    initState
